import Mathlib

/-!
# Nedge: a shallow embedding of `nedge.js`

The animation keeps a set of drifting nodes and, every tick, rebuilds the set
of edges between nodes that are close enough.

Modelling conventions

* JavaScript numbers are read as elements of a linearly ordered field `K`
  (exact arithmetic, no rounding, no `NaN`).  Every definition is generic in
  `K`, so it runs on `ℚ`; theorems that need facts about square roots are
  stated over `ℝ`.
* `Math.sqrt` is the parameter `sqrt : K → K`; over `ℝ` it is `Real.sqrt`.
* `Math.random()` reads the head of a stream of draws and leaves the tail.
* Objects live in a store `heap : Nat → Node K`; the arrays `nodes` and the
  two fields of an `Edge` hold addresses, so `==` on nodes is equality of
  addresses.
* Division is the division of the field, where `x / 0 = 0`; JavaScript gives
  an infinity or `NaN` there.  Every statement that depends on the value of a
  quotient assumes its divisor is not zero.
* The canvas and the drawing calls are left out; `Edge.draw` is kept for the
  alpha it recomputes.
* The loop of `createNodes` compares its counter with a number, so it is given
  fuel: one unit for each test of the condition, and `none` when the fuel runs
  out before the condition fails.
* A second reading of the tick checks every array access and every division
  and reports a `Fault` for an index out of range or a zero divisor.

The file has three parts: the definitions read off the source, the auxiliary
definitions and lemmas, and the properties of the specification with their
instances.
-/

set_option linter.unusedSectionVars false

namespace Nedge

/-! ## Constants -/

/-- The constant `INVERSE_NODE_DENSITY = 10000`. -/
def INVERSE_NODE_DENSITY : Nat := 10000

/-- The constant `NODE_COLOR`. -/
def NODE_COLOR : String := "rgb(86, 226, 125)"

/-- The constant `EDGE_COLOR = NODE_COLOR`. -/
def EDGE_COLOR : String := NODE_COLOR

/-- The constant `NODE_MAX_DISTANCE = 0.8`. -/
def NODE_MAX_DISTANCE {K : Type} [LinearOrderedField K] : K := 0.8

/-- The constant `NODE_RADIUS = 2`. -/
def NODE_RADIUS : Nat := 2

/-- The constant `EDGE_WIDTH = 1`. -/
def EDGE_WIDTH : Nat := 1

/-! ## Random draws -/

/-- The source of `Math.random()`: the draws still to come. -/
abbrev Rng (K : Type) := Nat → K

/-- One call of `Math.random()`: the value drawn and the remaining draws. -/
def random {K : Type} (r : Rng K) : K × Rng K :=
  (r 0, fun i => r (i + 1))

/-- Every draw lies in `[0, 1)`, as `Math.random()` promises. -/
def Rng.Unit {K : Type} [LinearOrderedField K] (r : Rng K) : Prop :=
  ∀ i, 0 ≤ r i ∧ r i < 1

/-! ## Node -/

/-- The fields of a `Node` object. -/
structure Node (K : Type) where
  x : K
  y : K
  speedx : K
  speedy : K
  age : K
  color : String
  radius : Nat
deriving DecidableEq

section

variable {K : Type} [LinearOrderedField K]

/-- The constructor `new Node()`. -/
def Node.new : Node K :=
  { x := 0, y := 0, speedx := 0, speedy := 0, age := 0,
    color := NODE_COLOR, radius := NODE_RADIUS }

/-- The method `spawn`, reading the globals `width` and `height`. -/
def Node.spawn (width height : K) (n : Node K) (r : Rng K) : Node K × Rng K :=
  let (r1, r) := random r
  let n := { n with x := r1 }
  let (r2, r) := random r
  let n := { n with y := r2 }
  let (r3, r) := random r
  let n := { n with speedx := ((r3 * 0.4) - 0.2) / width }
  let (r4, r) := random r
  let n := { n with speedy := ((r4 * 0.4) - 0.2) / height }
  let n := { n with age := 0 }
  (n, r)

/-- The method `distanceTo(node, inPixels)`, reading the globals `width` and
`height`. -/
def Node.distanceTo (sqrt : K → K) (width height : K) (self node : Node K)
    (inPixels : Bool) : K :=
  if inPixels then
    let thisx := self.x * width
    let thisy := self.y * height
    let nodex := node.x * width
    let nodey := node.y * height
    sqrt ((thisx - nodex) ^ 2 + (thisy - nodey) ^ 2)
  else
    sqrt ((self.x - node.x) ^ 2 + (self.y - node.y) ^ 2)

/-- The method `update`. -/
def Node.update (width height : K) (n : Node K) (r : Rng K) : Node K × Rng K :=
  -- Update age
  let n := if n.age ≤ 1 then { n with age := n.age + 0.01 } else n
  -- Update x and y coordinates
  let n := { n with x := n.x + n.speedx }
  let n := { n with y := n.y + n.speedy }
  -- Keep the point on the screen: respawn once it leaves
  let (n, r) := if n.x ≤ 0 ∨ n.x ≥ 1 then Node.spawn width height n r else (n, r)
  let (n, r) := if n.y ≤ 0 ∨ n.y ≥ 1 then Node.spawn width height n r else (n, r)
  (n, r)

/-- The node after `k` successive calls of `update`. -/
def Node.updateN (width height : K) : Nat → Node K → Rng K → Node K × Rng K
  | 0, n, r => (n, r)
  | k + 1, n, r =>
    let (n, r) := Node.update width height n r
    Node.updateN width height k n r

/-! ## Edge and the global state -/

/-- The fields of an `Edge` object; `startNode` and `endNode` are the addresses
of the two nodes it refers to. -/
structure Edge (K : Type) where
  startNode : Nat
  endNode : Nat
  color : String
  width : Nat
  alpha : K
deriving DecidableEq

/-- The global variables of the script, with the object store `heap` that
gives each node address its current fields and the draws `rng` left for
`Math.random()`.  `next` is the first address not yet handed out. -/
structure Sim (K : Type) where
  width : K
  height : K
  nodes : List Nat
  amountOfNodes : K
  edges : List (Edge K)
  distanceThreshold : K
  heap : Nat → Node K
  next : Nat
  rng : Rng K

/-- The constructor `new Edge(startNode, endNode)`. -/
def Edge.new (startNode endNode : Nat) : Edge K :=
  { startNode := startNode, endNode := endNode, color := EDGE_COLOR,
    width := EDGE_WIDTH, alpha := 0 }

/-- The method `calculateAlpha`, reading the global `distanceThreshold` and the
current fields of the two nodes. -/
def Edge.calculateAlpha (sqrt : K → K) (s : Sim K) (e : Edge K) : Edge K :=
  let nodeDistance :=
    Node.distanceTo sqrt s.width s.height (s.heap e.startNode) (s.heap e.endNode) true
  let nodeAgeMultiplier := (s.heap e.startNode).age * (s.heap e.endNode).age
  { e with alpha :=
      ((s.distanceThreshold - nodeDistance) / s.distanceThreshold) * nodeAgeMultiplier }

/-- The method `draw` of an edge, as far as the state goes: it recomputes the
alpha and strokes the line with it. -/
def Edge.draw (sqrt : K → K) (s : Sim K) (e : Edge K) : Edge K :=
  Edge.calculateAlpha sqrt s e

/-- The function `init`, given the dimensions the canvas reports. -/
def init (clientWidth clientHeight : K) (s : Sim K) : Sim K :=
  let s := { s with width := clientWidth }
  let s := { s with height := clientHeight }
  -- Calculate distance threshold
  { s with distanceThreshold := min s.width s.height * NODE_MAX_DISTANCE }

/-- The body of the inner loop of `updateEdges` at indices `i` and `j`. -/
def updateEdgesBody (sqrt : K → K) (s : Sim K) (i j : Nat) (edges : List (Edge K)) :
    List (Edge K) :=
  -- Only distinct nodes are relevant
  if s.nodes.getD i 0 = s.nodes.getD j 0 then
    edges
  -- Check if the distance is small enough to form an edge
  else if Node.distanceTo sqrt s.width s.height (s.heap (s.nodes.getD i 0))
      (s.heap (s.nodes.getD j 0)) true < s.distanceThreshold then
    edges ++ [Edge.new (s.nodes.getD i 0) (s.nodes.getD j 0)]
  else
    edges

/-- The function `updateEdges`. -/
def updateEdges (sqrt : K → K) (s : Sim K) : Sim K :=
  let edges : List (Edge K) := []
  -- Loop through all node pairs
  let edges := (List.range s.nodes.length).foldl
    (fun edges i => (List.range s.nodes.length).foldl
      (fun edges j => updateEdgesBody sqrt s i j edges) edges) edges
  { s with edges := edges }

/-- The body of the first loop of the function `update` at index `i`: the call
`nodes[i].update()`; the call `nodes[i].draw(context)` changes no state. -/
def updateNodesBody (s : Sim K) (i : Nat) : Sim K :=
  let a := s.nodes.getD i 0
  let (n, r) := Node.update s.width s.height (s.heap a) s.rng
  { s with heap := Function.update s.heap a n, rng := r }

/-- The function `update`, one tick: update every node, rebuild the edges, draw
every edge.  The request for the next frame is left to the caller. -/
def update (sqrt : K → K) (s : Sim K) : Sim K :=
  -- Update and draw
  let s := (List.range s.nodes.length).foldl updateNodesBody s
  -- Update edges
  let s := updateEdges sqrt s
  -- Draw edges
  { s with edges := s.edges.map (Edge.draw sqrt s) }

/-- The body of the loop of `createNodes`: `new Node()` takes the next free
address, `spawn` fills the node, `push` appends the address to `nodes`. -/
def createNodesBody (s : Sim K) : Sim K :=
  let node : Node K := Node.new
  let (node, r) := Node.spawn s.width s.height node s.rng
  { s with heap := Function.update s.heap s.next node, next := s.next + 1,
           nodes := s.nodes ++ [s.next], rng := r }

/-- The loop `for (i = 0; i < amountOfNodes; i++)` of `createNodes` from the
counter value `i` on.  Each test of the condition uses one unit of fuel; `none`
means the fuel ran out before the condition became false. -/
def createNodesLoop : Nat → Nat → Sim K → Option (Sim K)
  | 0, _, _ => none
  | fuel + 1, i, s =>
    if (i : K) < s.amountOfNodes then createNodesLoop fuel (i + 1) (createNodesBody s)
    else some s

/-- The function `createNodes`, with the fuel for its loop. -/
def createNodes (fuel : Nat) (s : Sim K) : Option (Sim K) :=
  -- Calculate the amount of nodes
  let s := { s with amountOfNodes := (s.width * s.height) / (INVERSE_NODE_DENSITY : K) }
  -- Create nodes
  createNodesLoop fuel 0 s

/-! ## The tick with its partial operations checked

The same statements as above, with every array access and every division
reporting a fault instead of going on when the index is out of range or the
divisor is zero. -/

/-- What a checked operation reports instead of a value. -/
inductive Fault where
  | indexOutOfRange
  | divisionByZero
deriving DecidableEq

/-- The array access `l[i]`, checked. -/
def checkedIndex {α : Type} (l : List α) (i : Nat) : Except Fault α :=
  match l[i]? with
  | some a => .ok a
  | none => .error .indexOutOfRange

/-- The division `a / b`, checked. -/
def checkedDiv (a b : K) : Except Fault K :=
  if b = 0 then .error .divisionByZero else .ok (a / b)

/-- The method `spawn` with its two divisions checked. -/
def Node.spawnChecked (width height : K) (n : Node K) (r : Rng K) :
    Except Fault (Node K × Rng K) := do
  let (r1, r) := random r
  let n := { n with x := r1 }
  let (r2, r) := random r
  let n := { n with y := r2 }
  let (r3, r) := random r
  let speedx ← checkedDiv ((r3 * 0.4) - 0.2) width
  let n := { n with speedx := speedx }
  let (r4, r) := random r
  let speedy ← checkedDiv ((r4 * 0.4) - 0.2) height
  let n := { n with speedy := speedy }
  let n := { n with age := 0 }
  return (n, r)

/-- The method `update` of a node, calling the checked `spawn`. -/
def Node.updateChecked (width height : K) (n : Node K) (r : Rng K) :
    Except Fault (Node K × Rng K) := do
  -- Update age
  let n := if n.age ≤ 1 then { n with age := n.age + 0.01 } else n
  -- Update x and y coordinates
  let n := { n with x := n.x + n.speedx }
  let n := { n with y := n.y + n.speedy }
  -- Keep the point on the screen: respawn once it leaves
  let (n, r) ← if n.x ≤ 0 ∨ n.x ≥ 1 then Node.spawnChecked width height n r else pure (n, r)
  let (n, r) ← if n.y ≤ 0 ∨ n.y ≥ 1 then Node.spawnChecked width height n r else pure (n, r)
  return (n, r)

/-- The method `calculateAlpha` with its division checked. -/
def Edge.calculateAlphaChecked (sqrt : K → K) (s : Sim K) (e : Edge K) :
    Except Fault (Edge K) := do
  let nodeDistance :=
    Node.distanceTo sqrt s.width s.height (s.heap e.startNode) (s.heap e.endNode) true
  let nodeAgeMultiplier := (s.heap e.startNode).age * (s.heap e.endNode).age
  let quotient ← checkedDiv (s.distanceThreshold - nodeDistance) s.distanceThreshold
  return { e with alpha := quotient * nodeAgeMultiplier }

/-- The method `draw` of an edge, calling the checked `calculateAlpha`. -/
def Edge.drawChecked (sqrt : K → K) (s : Sim K) (e : Edge K) : Except Fault (Edge K) :=
  Edge.calculateAlphaChecked sqrt s e

/-- The body of the first loop of the function `update`, the access `nodes[i]`
checked. -/
def updateNodesBodyChecked (s : Sim K) (i : Nat) : Except Fault (Sim K) := do
  let a ← checkedIndex s.nodes i
  let (n, r) ← Node.updateChecked s.width s.height (s.heap a) s.rng
  return { s with heap := Function.update s.heap a n, rng := r }

/-- The body of the inner loop of `updateEdges`, the accesses `nodes[i]` and
`nodes[j]` checked. -/
def updateEdgesBodyChecked (sqrt : K → K) (s : Sim K) (i j : Nat) (edges : List (Edge K)) :
    Except Fault (List (Edge K)) := do
  let a ← checkedIndex s.nodes i
  let b ← checkedIndex s.nodes j
  -- Only distinct nodes are relevant
  if a = b then
    return edges
  -- Check if the distance is small enough to form an edge
  else if Node.distanceTo sqrt s.width s.height (s.heap a) (s.heap b) true <
      s.distanceThreshold then
    return edges ++ [Edge.new a b]
  else
    return edges

/-- The function `updateEdges` over the checked body. -/
def updateEdgesChecked (sqrt : K → K) (s : Sim K) : Except Fault (Sim K) := do
  let edges : List (Edge K) := []
  -- Loop through all node pairs
  let edges ← (List.range s.nodes.length).foldlM
    (fun edges i => (List.range s.nodes.length).foldlM
      (fun edges j => updateEdgesBodyChecked sqrt s i j edges) edges) edges
  return { s with edges := edges }

/-- The last loop of the function `update` over the indices in the list: the
access `edges[i]` checked, then the checked `draw`. -/
def drawEdgesLoop (sqrt : K → K) (s : Sim K) : List Nat → Except Fault (List (Edge K))
  | [] => return []
  | i :: rest => do
    let e ← checkedIndex s.edges i
    let e ← Edge.drawChecked sqrt s e
    let es ← drawEdgesLoop sqrt s rest
    return e :: es

/-- The function `update`, one tick, over the checked operations. -/
def updateChecked (sqrt : K → K) (s : Sim K) : Except Fault (Sim K) := do
  -- Update and draw
  let s ← (List.range s.nodes.length).foldlM updateNodesBodyChecked s
  -- Update edges
  let s ← updateEdgesChecked sqrt s
  -- Draw edges
  let edges ← drawEdgesLoop sqrt s (List.range s.edges.length)
  return { s with edges := edges }

/-- The state after `k` ticks. -/
def ticks (sqrt : K → K) : Nat → Sim K → Sim K
  | 0, s => s
  | k + 1, s => ticks sqrt k (update sqrt s)

/-- The state after `k` checked ticks, or the first fault. -/
def ticksChecked (sqrt : K → K) : Nat → Sim K → Except Fault (Sim K)
  | 0, s => return s
  | k + 1, s => do
    let s ← updateChecked sqrt s
    ticksChecked sqrt k s

/-! ## Predicates and auxiliary definitions used in the statements -/

/-- The position is in the unit square: `0 ≤ x < 1` and `0 ≤ y < 1`. -/
def Node.InUnitSquare (n : Node K) : Prop :=
  0 ≤ n.x ∧ n.x < 1 ∧ 0 ≤ n.y ∧ n.y < 1

/-- The node as `update` has it before the two bounds checks: age and position
advanced. -/
def Node.advance (n : Node K) : Node K :=
  { (if n.age ≤ 1 then { n with age := n.age + 0.01 } else n) with
    x := n.x + n.speedx, y := n.y + n.speedy }

/-- The first bounds check of `update`: `x <= 0 || x >= 1`. -/
def Node.OffX (n : Node K) : Prop := n.x ≤ 0 ∨ n.x ≥ 1

/-- The second bounds check of `update`: `y <= 0 || y >= 1`. -/
def Node.OffY (n : Node K) : Prop := n.y ≤ 0 ∨ n.y ≥ 1

instance (n : Node K) : Decidable n.OffX := by unfold Node.OffX; infer_instance

instance (n : Node K) : Decidable n.OffY := by unfold Node.OffY; infer_instance

/-- The test under which `update` calls `spawn`, on the fields the node has
before the call: the advanced `x` or the advanced `y` is `<= 0` or `>= 1`. -/
def Node.Respawns (n : Node K) : Prop :=
  n.x + n.speedx ≤ 0 ∨ n.x + n.speedx ≥ 1 ∨ n.y + n.speedy ≤ 0 ∨ n.y + n.speedy ≥ 1

/-- The node carries exactly what one call of `spawn` writes when it reads the
draws `r k`, `r (k+1)`, `r (k+2)`, `r (k+3)`. -/
def Node.IsFreshAt (n : Node K) (width height : K) (r : Rng K) (k : Nat) : Prop :=
  n.age = 0 ∧ n.x = r k ∧ n.y = r (k + 1) ∧
    n.speedx = ((r (k + 2) * 0.4) - 0.2) / width ∧
    n.speedy = ((r (k + 3) * 0.4) - 0.2) / height

/-- The state after the first loop of the function `update`: every slot of
`nodes` visited once. -/
def afterNodes (s : Sim K) : Sim K :=
  (List.range s.nodes.length).foldl updateNodesBody s

/-- The pixel distance between the nodes stored at addresses `a` and `b`. -/
def Sim.pixelDistance (sqrt : K → K) (s : Sim K) (a b : Nat) : K :=
  Node.distanceTo sqrt s.width s.height (s.heap a) (s.heap b) true

/-- All ordered pairs `(i, j)` of indices into the array `nodes`, in
lexicographic order. -/
def indexPairs (s : Sim K) : List (Nat × Nat) :=
  List.range s.nodes.length ×ˢ List.range s.nodes.length

/-- The pair of indices qualifies for an edge: the two slots hold different
nodes and their pixel distance is strictly below the threshold. -/
def Qualifies (sqrt : K → K) (s : Sim K) (p : Nat × Nat) : Prop :=
  s.nodes.getD p.1 0 ≠ s.nodes.getD p.2 0 ∧
    s.pixelDistance sqrt (s.nodes.getD p.1 0) (s.nodes.getD p.2 0) < s.distanceThreshold

instance (sqrt : K → K) (s : Sim K) : DecidablePred (Qualifies sqrt s) := by
  intro p; unfold Qualifies; infer_instance

/-- The edge built for the pair of indices `p`. -/
def edgeAt (s : Sim K) (p : Nat × Nat) : Edge K :=
  Edge.new (s.nodes.getD p.1 0) (s.nodes.getD p.2 0)

/-- The edge collection the rebuild is meant to leave: one new edge for every
qualifying ordered pair of indices, in lexicographic order, and nothing else. -/
def rebuiltEdges (sqrt : K → K) (s : Sim K) : List (Edge K) :=
  ((indexPairs s).filter (fun p => decide (Qualifies sqrt s p))).map (edgeAt s)

/-- A 1000x1000 surface, set up by `init`, whose array `nodes` holds two nodes:
`a` at address `0` and `b` at address `1`. -/
def twoNodes (a b : Node K) : Sim K :=
  init 1000 1000
    { width := 0, height := 0, nodes := [0, 1], amountOfNodes := 0, edges := [],
      distanceThreshold := 0, heap := fun i => if i = 0 then a else b, next := 2,
      rng := fun _ => 0 }

/-- Scenario A: nodes at normalized (0.1, 0.1) and (0.1, 0.1001), both of age 1,
on a 1000x1000 surface. -/
def scenarioA : Sim K :=
  twoNodes { (Node.new : Node K) with x := 0.1, y := 0.1, age := 1 }
    { (Node.new : Node K) with x := 0.1, y := 0.1001, age := 1 }

/-- Scenario D: two nodes at the same position (0.5, 0.5) on a 1000x1000
surface. -/
def scenarioD : Sim K :=
  twoNodes { (Node.new : Node K) with x := 0.5, y := 0.5, age := 1 }
    { (Node.new : Node K) with x := 0.5, y := 0.5, age := 1 }

/-- Two nodes 900 pixels apart on a 1000x1000 surface, at (0.05, 0.5) and
(0.95, 0.5); the first has the given age, the second has age 1. -/
def farApart (age : K) : Sim K :=
  twoNodes { (Node.new : Node K) with x := 0.05, y := 0.5, age := age }
    { (Node.new : Node K) with x := 0.95, y := 0.5, age := 1 }

/-- Two nodes at the same position (0.5, 0.5) on a 1000x1000 surface; the first
has the given age, the second has age 1. -/
def closePair (age : K) : Sim K :=
  twoNodes { (Node.new : Node K) with x := 0.5, y := 0.5, age := age }
    { (Node.new : Node K) with x := 0.5, y := 0.5, age := 1 }

/-- Scenario B inside a tick: on a 1000x1000 surface the first node is at
x = 0.995 with speedx = 0.01, about to leave on the right; the second rests at
(0.5, 0.5).  Every draw to come is `0`. -/
def leaving : Sim K :=
  twoNodes { (Node.new : Node K) with x := 0.995, y := 0.5, speedx := 0.01, age := 1 }
    { (Node.new : Node K) with x := 0.5, y := 0.5, age := 1 }

instance (n : Node K) : Decidable n.Respawns := by unfold Node.Respawns; infer_instance

/-- The method `update` with a counter of its calls of `spawn`: the same
statements in the same order, the counter raised next to each call. -/
def Node.updateCounting (width height : K) (n : Node K) (r : Rng K) :
    (Node K × Rng K) × Nat :=
  let calls := 0
  -- Update age
  let n := if n.age ≤ 1 then { n with age := n.age + 0.01 } else n
  -- Update x and y coordinates
  let n := { n with x := n.x + n.speedx }
  let n := { n with y := n.y + n.speedy }
  -- Keep the point on the screen: respawn once it leaves
  let ((n, r), calls) :=
    if n.x ≤ 0 ∨ n.x ≥ 1 then (Node.spawn width height n r, calls + 1) else ((n, r), calls)
  let ((n, r), calls) :=
    if n.y ≤ 0 ∨ n.y ≥ 1 then (Node.spawn width height n r, calls + 1) else ((n, r), calls)
  ((n, r), calls)

/-- A node resting at (0.5, 0.5) with the given age. -/
def resting (age : K) : Node K :=
  { (Node.new : Node K) with x := 0.5, y := 0.5, age := age }

/-- The globals as the script declares them, before `init`: no node, no edge,
with the draws `r` to come. -/
def blank (r : Rng K) : Sim K :=
  { width := 0, height := 0, nodes := [], amountOfNodes := 0, edges := [],
    distanceThreshold := 0, heap := fun _ => Node.new, next := 0, rng := r }

/-! ## Facts about the draws, `spawn` and `update` of a node -/

theorem Rng.Unit.tail {r : Rng K} (hr : r.Unit) (k : Nat) :
    Rng.Unit (fun i => r (i + k)) :=
  fun i => hr (i + k)

theorem Rng.Unit.const_half : Rng.Unit (fun _ => (1 / 2 : K)) := by
  intro i
  constructor <;> norm_num

theorem Node.spawn_fst (width height : K) (n : Node K) (r : Rng K) :
    (Node.spawn width height n r).1 =
      { n with x := r 0, y := r 1, speedx := ((r 2 * 0.4) - 0.2) / width,
               speedy := ((r 3 * 0.4) - 0.2) / height, age := 0 } :=
  rfl

theorem Node.spawn_snd (width height : K) (n : Node K) (r : Rng K) :
    (Node.spawn width height n r).2 = fun i => r (i + 4) :=
  rfl

theorem Node.spawn_rng_unit (width height : K) (n : Node K) {r : Rng K} (hr : r.Unit) :
    (Node.spawn width height n r).2.Unit := by
  rw [Node.spawn_snd]
  exact hr.tail 4

theorem Node.spawn_inUnitSquare (width height : K) (n : Node K) {r : Rng K} (hr : r.Unit) :
    (Node.spawn width height n r).1.InUnitSquare := by
  rw [Node.spawn_fst]
  exact ⟨(hr 0).1, (hr 0).2, (hr 1).1, (hr 1).2⟩

/-- The fields a call of `spawn` writes, read from the draws `r k .. r (k+3)`. -/
theorem Node.spawn_fresh (width height : K) (n : Node K) (r : Rng K) (k : Nat) :
    (Node.spawn width height n (fun i => r (i + k))).1.IsFreshAt width height r k := by
  rw [Node.spawn_fst]
  have e : ∀ j, j + k = k + j := fun j => Nat.add_comm j k
  refine ⟨rfl, ?_, ?_, ?_, ?_⟩ <;> simp only [e, Nat.add_zero]

theorem Node.advance_x (n : Node K) : n.advance.x = n.x + n.speedx := rfl

theorem Node.advance_y (n : Node K) : n.advance.y = n.y + n.speedy := rfl

theorem Node.update_eq (width height : K) (n : Node K) (r : Rng K) :
    Node.update width height n r =
      if n.advance.OffX then
        if (Node.spawn width height n.advance r).1.OffY then
          Node.spawn width height (Node.spawn width height n.advance r).1
            (Node.spawn width height n.advance r).2
        else Node.spawn width height n.advance r
      else if n.advance.OffY then Node.spawn width height n.advance r
      else (n.advance, r) := by
  unfold Node.update Node.advance Node.OffX Node.OffY
  by_cases ha : n.age ≤ 1 <;> simp only [ha, if_true, if_false] <;>
    split_ifs <;> rfl

/-- The four ways through the two bounds checks of `update`. -/
theorem Node.update_cases (width height : K) (n : Node K) (r : Rng K) :
    (n.advance.OffX ∧ (Node.spawn width height n.advance r).1.OffY ∧
        Node.update width height n r =
          Node.spawn width height (Node.spawn width height n.advance r).1
            (Node.spawn width height n.advance r).2) ∨
      (n.advance.OffX ∧ ¬ (Node.spawn width height n.advance r).1.OffY ∧
        Node.update width height n r = Node.spawn width height n.advance r) ∨
      (¬ n.advance.OffX ∧ n.advance.OffY ∧
        Node.update width height n r = Node.spawn width height n.advance r) ∨
      (¬ n.advance.OffX ∧ ¬ n.advance.OffY ∧
        Node.update width height n r = (n.advance, r)) := by
  rw [Node.update_eq]
  by_cases hx : n.advance.OffX
  · by_cases hy : (Node.spawn width height n.advance r).1.OffY
    · left; exact ⟨hx, hy, by rw [if_pos hx, if_pos hy]⟩
    · right; left; exact ⟨hx, hy, by rw [if_pos hx, if_neg hy]⟩
  · by_cases hy : n.advance.OffY
    · right; right; left; exact ⟨hx, hy, by rw [if_neg hx, if_pos hy]⟩
    · right; right; right; exact ⟨hx, hy, by rw [if_neg hx, if_neg hy]⟩

theorem Node.update_inUnitSquare (width height : K) (n : Node K) {r : Rng K} (hr : r.Unit) :
    (Node.update width height n r).1.InUnitSquare := by
  rcases Node.update_cases width height n r with
    ⟨_, _, h⟩ | ⟨_, _, h⟩ | ⟨_, _, h⟩ | ⟨hx, hy, h⟩ <;> rw [h]
  · exact Node.spawn_inUnitSquare _ _ _ (Node.spawn_rng_unit _ _ _ hr)
  · exact Node.spawn_inUnitSquare _ _ _ hr
  · exact Node.spawn_inUnitSquare _ _ _ hr
  · simp only [Node.OffX, Node.OffY, not_or, not_le, ge_iff_le] at hx hy
    exact ⟨hx.1.le, hx.2, hy.1.le, hy.2⟩

/-- Without a respawn `update` only advances the node and reads no draw. -/
theorem Node.update_of_inside (width height : K) (n : Node K) (r : Rng K)
    (hx : 0 < n.x + n.speedx ∧ n.x + n.speedx < 1)
    (hy : 0 < n.y + n.speedy ∧ n.y + n.speedy < 1) :
    Node.update width height n r = (n.advance, r) := by
  have hnx : ¬ n.advance.OffX := by
    unfold Node.OffX
    rw [Node.advance_x]
    intro h
    rcases h with h | h
    · exact absurd hx.1 (not_lt.2 h)
    · exact absurd hx.2 (not_lt.2 h)
  have hny : ¬ n.advance.OffY := by
    unfold Node.OffY
    rw [Node.advance_y]
    intro h
    rcases h with h | h
    · exact absurd hy.1 (not_lt.2 h)
    · exact absurd hy.2 (not_lt.2 h)
  rw [Node.update_eq, if_neg hnx, if_neg hny]

/-- With a respawn the node `update` returns carries the values of one call of
`spawn`, read at offset `0` or `4` of the draws. -/
theorem Node.update_fresh_of_respawn (width height : K) (n : Node K) (r : Rng K)
    (h : n.Respawns) :
    ∃ k, (k = 0 ∨ k = 4) ∧
      (Node.update width height n r).1.IsFreshAt width height r k ∧
      (Node.update width height n r).2 = fun i => r (i + (k + 4)) := by
  rcases Node.update_cases width height n r with
    ⟨_, _, e⟩ | ⟨_, _, e⟩ | ⟨_, _, e⟩ | ⟨hx, hy, _⟩
  · refine ⟨4, Or.inr rfl, ?_, ?_⟩
    · rw [e, Node.spawn_snd]
      exact Node.spawn_fresh width height _ r 4
    · rw [e, Node.spawn_snd, Node.spawn_snd]
  · refine ⟨0, Or.inl rfl, ?_, ?_⟩
    · rw [e]
      exact Node.spawn_fresh width height _ r 0
    · rw [e, Node.spawn_snd]
  · refine ⟨0, Or.inl rfl, ?_, ?_⟩
    · rw [e]
      exact Node.spawn_fresh width height _ r 0
    · rw [e, Node.spawn_snd]
  · exfalso
    unfold Node.Respawns at h
    unfold Node.OffX at hx
    unfold Node.OffY at hy
    rw [Node.advance_x] at hx
    rw [Node.advance_y] at hy
    rcases h with h | h | h | h
    · exact hx (Or.inl h)
    · exact hx (Or.inr h)
    · exact hy (Or.inl h)
    · exact hy (Or.inr h)

/-- The respawn test of `update`, on the fields the node has before the call. -/
theorem Node.update_age_of_respawn (width height : K) (n : Node K) (r : Rng K)
    (h : n.Respawns) : (Node.update width height n r).1.age = 0 := by
  rcases Node.update_cases width height n r with
    ⟨_, _, e⟩ | ⟨_, _, e⟩ | ⟨_, _, e⟩ | ⟨hx, hy, _⟩
  · rw [e]; rfl
  · rw [e]; rfl
  · rw [e]; rfl
  · exfalso
    unfold Node.Respawns at h
    unfold Node.OffX at hx
    unfold Node.OffY at hy
    rw [Node.advance_x] at hx
    rw [Node.advance_y] at hy
    rcases h with h | h | h | h
    · exact hx (Or.inl h)
    · exact hx (Or.inr h)
    · exact hy (Or.inl h)
    · exact hy (Or.inr h)

/-! ## Facts about distance, alpha and the rebuilt edges -/

theorem Node.distanceTo_comm (sqrt : K → K) (width height : K) (a b : Node K)
    (inPixels : Bool) :
    Node.distanceTo sqrt width height a b inPixels =
      Node.distanceTo sqrt width height b a inPixels := by
  unfold Node.distanceTo
  cases inPixels
  · simp only [Bool.false_eq_true, if_false]
    congr 1
    ring
  · simp only [if_true]
    congr 1
    ring

theorem Edge.calculateAlpha_alpha (sqrt : K → K) (s : Sim K) (e : Edge K) :
    (Edge.calculateAlpha sqrt s e).alpha =
      ((s.distanceThreshold - s.pixelDistance sqrt e.startNode e.endNode) /
        s.distanceThreshold) * ((s.heap e.startNode).age * (s.heap e.endNode).age) :=
  rfl

theorem pixelDistance_eq_zero_of_same_position (s : Sim ℝ) (a b : Nat)
    (hx : (s.heap a).x = (s.heap b).x) (hy : (s.heap a).y = (s.heap b).y) :
    s.pixelDistance Real.sqrt a b = 0 := by
  unfold Sim.pixelDistance Node.distanceTo
  simp [hx, hy]

theorem foldl_append_eq_flatMap {α β : Type} (f : α → List β) (l : List α) (init : List β) :
    l.foldl (fun acc a => acc ++ f a) init = init ++ l.flatMap f := by
  induction l generalizing init with
  | nil => simp
  | cons a l ih => simp [List.foldl_cons, ih, List.flatMap_cons, List.append_assoc]

theorem updateEdgesBody_eq (sqrt : K → K) (s : Sim K) (i j : Nat) (edges : List (Edge K)) :
    updateEdgesBody sqrt s i j edges =
      edges ++ (if Qualifies sqrt s (i, j) then [edgeAt s (i, j)] else []) := by
  unfold updateEdgesBody Qualifies edgeAt Sim.pixelDistance
  dsimp only
  by_cases h1 : s.nodes.getD i 0 = s.nodes.getD j 0
  · rw [if_pos h1, if_neg (fun h => h.1 h1), List.append_nil]
  · by_cases h2 : Node.distanceTo sqrt s.width s.height (s.heap (s.nodes.getD i 0))
        (s.heap (s.nodes.getD j 0)) true < s.distanceThreshold
    · rw [if_neg h1, if_pos h2, if_pos ⟨h1, h2⟩]
    · rw [if_neg h1, if_neg h2, if_neg (fun h => h2 h.2), List.append_nil]

theorem filter_map_product_eq_flatMap {α β γ : Type} (p : α × β → Prop) [DecidablePred p]
    (g : α × β → γ) (l₁ : List α) (l₂ : List β) :
    ((l₁ ×ˢ l₂).filter (fun q => decide (p q))).map g =
      l₁.flatMap (fun a => l₂.flatMap (fun b => if p (a, b) then [g (a, b)] else [])) := by
  have inner : ∀ (a : α) (l : List β),
      ((l.map (Prod.mk a)).filter (fun q => decide (p q))).map g =
        l.flatMap (fun b => if p (a, b) then [g (a, b)] else []) := by
    intro a l
    induction l with
    | nil => rfl
    | cons b l ih =>
      by_cases h : p (a, b)
      · simp [List.filter_cons, h, List.flatMap_cons, ← ih]
      · simp [List.filter_cons, h, List.flatMap_cons, ← ih]
  induction l₁ with
  | nil => rfl
  | cons a l ih =>
    rw [List.flatMap_cons, ← ih, ← inner a l₂]
    simp [List.product, List.flatMap_cons]

/-- The edges left by `updateEdges`: one per qualifying pair of indices, in
lexicographic order of the pairs. -/
theorem updateEdges_edges (sqrt : K → K) (s : Sim K) :
    (updateEdges sqrt s).edges = rebuiltEdges sqrt s := by
  unfold updateEdges rebuiltEdges indexPairs
  rw [filter_map_product_eq_flatMap]
  simp only [updateEdgesBody_eq, foldl_append_eq_flatMap, List.nil_append]

theorem Qualifies.swap {sqrt : K → K} {s : Sim K} {i j : Nat} (h : Qualifies sqrt s (i, j)) :
    Qualifies sqrt s (j, i) := by
  unfold Qualifies Sim.pixelDistance at *
  refine ⟨fun e => h.1 e.symm, ?_⟩
  rw [Node.distanceTo_comm]
  exact h.2

theorem Qualifies.irrefl (sqrt : K → K) (s : Sim K) (i : Nat) : ¬ Qualifies sqrt s (i, i) :=
  fun h => h.1 rfl

theorem mem_indexPairs {s : Sim K} {p : Nat × Nat} :
    p ∈ indexPairs s ↔ p.1 < s.nodes.length ∧ p.2 < s.nodes.length := by
  unfold indexPairs
  rw [List.mem_product, List.mem_range, List.mem_range]

theorem nodup_indexPairs (s : Sim K) : (indexPairs s).Nodup :=
  List.Nodup.product (List.nodup_range _) (List.nodup_range _)

theorem getD_mem_of_lt {l : List Nat} {i : Nat} (h : i < l.length) : l.getD i 0 ∈ l := by
  rw [List.getD_eq_getElem l 0 h]
  exact List.getElem_mem h

theorem getD_inj_of_nodup {l : List Nat} (hl : l.Nodup) {i j : Nat} (hi : i < l.length)
    (hj : j < l.length) (h : l.getD i 0 = l.getD j 0) : i = j := by
  rw [List.getD_eq_getElem l 0 hi, List.getD_eq_getElem l 0 hj] at h
  exact (List.Nodup.getElem_inj_iff hl).1 h

theorem mem_rebuiltEdges {sqrt : K → K} {s : Sim K} {e : Edge K} :
    e ∈ rebuiltEdges sqrt s ↔
      ∃ p, (p ∈ indexPairs s ∧ Qualifies sqrt s p) ∧ edgeAt s p = e := by
  unfold rebuiltEdges
  simp only [List.mem_map, List.mem_filter, decide_eq_true_eq]

/-- A symmetric, irreflexive condition holds for an even number of index pairs. -/
theorem even_length_filter_pairs (n : Nat) (P : Nat × Nat → Prop) [DecidablePred P]
    (hsymm : ∀ i j, P (i, j) → P (j, i)) (hirr : ∀ i, ¬ P (i, i)) :
    Even ((List.range n ×ˢ List.range n).filter (fun p => decide (P p))).length := by
  have hnd : ((List.range n ×ˢ List.range n).filter (fun p => decide (P p))).Nodup :=
    (List.Nodup.product (List.nodup_range n) (List.nodup_range n)).filter _
  rw [← List.toFinset_card_of_nodup hnd, ← ZMod.eq_zero_iff_even, Finset.card_eq_sum_ones,
    Nat.cast_sum]
  have hmem : ∀ q : Nat × Nat,
      q ∈ ((List.range n ×ˢ List.range n).filter (fun p => decide (P p))).toFinset ↔
        (q.1 < n ∧ q.2 < n) ∧ P q := by
    intro ⟨i, j⟩
    simp only [List.mem_toFinset, List.mem_filter, List.mem_product, List.mem_range,
      decide_eq_true_eq]
  refine Finset.sum_involution (fun q _ => q.swap) ?_ ?_ ?_ ?_
  · intro q _
    norm_num
    exact (by decide : (1 : ZMod 2) + 1 = 0)
  · intro q hq _ hswap
    have hP := ((hmem q).1 hq).2
    have h12 : q.2 = q.1 := congrArg Prod.fst hswap
    obtain ⟨i, j⟩ := q
    simp only at h12
    subst h12
    exact hirr _ hP
  · intro q hq
    obtain ⟨⟨h1, h2⟩, hP⟩ := (hmem q).1 hq
    exact (hmem q.swap).2 ⟨⟨h2, h1⟩, hsymm q.1 q.2 hP⟩
  · intro q _
    exact Prod.swap_swap q

theorem even_length_rebuiltEdges (sqrt : K → K) (s : Sim K) :
    Even (rebuiltEdges sqrt s).length := by
  unfold rebuiltEdges indexPairs
  rw [List.length_map]
  exact even_length_filter_pairs _ _ (fun _ _ h => h.swap) (Qualifies.irrefl sqrt s)

theorem nodup_rebuiltEdges (sqrt : K → K) (s : Sim K) (hnd : s.nodes.Nodup) :
    (rebuiltEdges sqrt s).Nodup := by
  unfold rebuiltEdges
  refine List.Nodup.map_on ?_ ((nodup_indexPairs s).filter _)
  intro p hp q hq hpq
  have hp1 := mem_indexPairs.1 (List.mem_filter.1 hp).1
  have hq1 := mem_indexPairs.1 (List.mem_filter.1 hq).1
  unfold edgeAt Edge.new at hpq
  have h1 : s.nodes.getD p.1 0 = s.nodes.getD q.1 0 := congrArg Edge.startNode hpq
  have h2 : s.nodes.getD p.2 0 = s.nodes.getD q.2 0 := congrArg Edge.endNode hpq
  exact Prod.ext (getD_inj_of_nodup hnd hp1.1 hq1.1 h1) (getD_inj_of_nodup hnd hp1.2 hq1.2 h2)

theorem rebuiltEdges_of_edges_update (sqrt : K → K) (s : Sim K) (es : List (Edge K)) :
    rebuiltEdges sqrt { s with edges := es } = rebuiltEdges sqrt s :=
  rfl

theorem Qualifies_iff_of_nodup {sqrt : K → K} {s : Sim K} (hnd : s.nodes.Nodup)
    {p : Nat × Nat} (hp : p ∈ indexPairs s) :
    Qualifies sqrt s p ↔
      p.1 ≠ p.2 ∧
        s.pixelDistance sqrt (s.nodes.getD p.1 0) (s.nodes.getD p.2 0) < s.distanceThreshold := by
  have hlt := mem_indexPairs.1 hp
  unfold Qualifies
  constructor
  · rintro ⟨h1, h2⟩
    exact ⟨fun e => h1 (by rw [e]), h2⟩
  · rintro ⟨h1, h2⟩
    exact ⟨fun e => h1 (getD_inj_of_nodup hnd hlt.1 hlt.2 e), h2⟩

/-! ## Facts about one tick -/

theorem updateNodesBody_nodes (s : Sim K) (i : Nat) : (updateNodesBody s i).nodes = s.nodes :=
  rfl

theorem updateNodesBody_heap (s : Sim K) (i : Nat) :
    (updateNodesBody s i).heap =
      Function.update s.heap (s.nodes.getD i 0)
        (Node.update s.width s.height (s.heap (s.nodes.getD i 0)) s.rng).1 :=
  rfl

theorem foldl_updateNodesBody_nodes (l : List Nat) (s : Sim K) :
    (l.foldl updateNodesBody s).nodes = s.nodes := by
  induction l generalizing s with
  | nil => rfl
  | cons i l ih => rw [List.foldl_cons, ih, updateNodesBody_nodes]

theorem foldl_updateNodesBody_distanceThreshold (l : List Nat) (s : Sim K) :
    (l.foldl updateNodesBody s).distanceThreshold = s.distanceThreshold := by
  induction l generalizing s with
  | nil => rfl
  | cons i l ih => rw [List.foldl_cons, ih]; rfl

/-- The node loop leaves alone every node whose address is in none of the
visited slots. -/
theorem foldl_updateNodesBody_heap_of_not_mem (l : List Nat) (s : Sim K) (a : Nat)
    (ha : ∀ i ∈ l, s.nodes.getD i 0 ≠ a) :
    (l.foldl updateNodesBody s).heap a = s.heap a := by
  induction l generalizing s with
  | nil => rfl
  | cons i l ih =>
    rw [List.foldl_cons, ih]
    · rw [updateNodesBody_heap]
      exact Function.update_noteq (ha i (List.mem_cons_self i l)).symm _ _
    · intro j hj
      rw [updateNodesBody_nodes]
      exact ha j (List.mem_cons_of_mem i hj)

/-- A node that is visited once by the node loop and respawns there has age `0`
when the loop ends. -/
theorem foldl_updateNodesBody_age_of_respawn (l : List Nat) (s : Sim K) (i : Nat)
    (hl : (l.map (fun j => s.nodes.getD j 0)).Nodup) (hi : i ∈ l)
    (h : (s.heap (s.nodes.getD i 0)).Respawns) :
    ((l.foldl updateNodesBody s).heap (s.nodes.getD i 0)).age = 0 := by
  induction l generalizing s with
  | nil => exact absurd hi (List.not_mem_nil i)
  | cons j l ih =>
    rw [List.map_cons, List.nodup_cons] at hl
    rw [List.foldl_cons]
    by_cases hji : j = i
    · subst hji
      rw [foldl_updateNodesBody_heap_of_not_mem]
      · rw [updateNodesBody_heap, Function.update_same]
        exact Node.update_age_of_respawn _ _ _ _ h
      · intro k hk e
        rw [updateNodesBody_nodes] at e
        exact hl.1 (List.mem_map.2 ⟨k, hk, e⟩)
    · have hil : i ∈ l := by
        rcases List.mem_cons.1 hi with e | e
        · exact absurd e.symm hji
        · exact e
      have hne : s.nodes.getD i 0 ≠ s.nodes.getD j 0 := by
        intro e
        exact hl.1 (List.mem_map.2 ⟨i, hil, e⟩)
      have hs := ih (updateNodesBody s j) hl.2 hil
      rw [updateNodesBody_nodes] at hs
      apply hs
      rw [updateNodesBody_heap, Function.update_noteq hne]
      exact h

theorem map_getD_range (l : List Nat) :
    (List.range l.length).map (fun j => l.getD j 0) = l := by
  apply List.ext_getElem
  · simp
  · intro n h₁ h₂
    simp only [List.getElem_map, List.getElem_range]
    exact List.getD_eq_getElem l 0 h₂

theorem update_edges (sqrt : K → K) (s : Sim K) :
    (update sqrt s).edges =
      (updateEdges sqrt ((List.range s.nodes.length).foldl updateNodesBody s)).edges.map
        (Edge.draw sqrt (updateEdges sqrt ((List.range s.nodes.length).foldl updateNodesBody s))) :=
  rfl

/-! ## Facts about the worked scenarios -/

theorem twoNodes_nodes (a b : Node K) : (twoNodes a b).nodes = [0, 1] := rfl

theorem twoNodes_heap_zero (a b : Node K) : (twoNodes a b).heap 0 = a := rfl

theorem twoNodes_heap_one (a b : Node K) : (twoNodes a b).heap 1 = b := rfl

theorem twoNodes_distanceThreshold (a b : Node K) :
    (twoNodes a b).distanceThreshold = 800 := by
  unfold twoNodes init NODE_MAX_DISTANCE
  norm_num

theorem scenarioA_pixelDistance :
    (scenarioA : Sim ℝ).pixelDistance Real.sqrt 0 1 = 0.1 := by
  have h : (scenarioA : Sim ℝ).pixelDistance Real.sqrt 0 1 = Real.sqrt (0.1 ^ 2) := by
    unfold Sim.pixelDistance Node.distanceTo scenarioA
    rw [twoNodes_heap_zero, twoNodes_heap_one]
    simp only [twoNodes, init, if_true]
    congr 1
    norm_num
  rw [h, Real.sqrt_sq (by norm_num)]

theorem farApart_pixelDistance (age : ℝ) :
    (farApart age : Sim ℝ).pixelDistance Real.sqrt 0 1 = 900 := by
  have h : (farApart age : Sim ℝ).pixelDistance Real.sqrt 0 1 = Real.sqrt (900 ^ 2) := by
    unfold Sim.pixelDistance Node.distanceTo farApart
    rw [twoNodes_heap_zero, twoNodes_heap_one]
    simp only [twoNodes, init, if_true]
    congr 1
    norm_num
  rw [h, Real.sqrt_sq (by norm_num)]

theorem farApart_alpha (age : ℝ) :
    (Edge.calculateAlpha Real.sqrt (farApart age) (Edge.new 0 1)).alpha = -0.125 * age := by
  rw [Edge.calculateAlpha_alpha]
  show (((farApart age : Sim ℝ).distanceThreshold -
      (farApart age : Sim ℝ).pixelDistance Real.sqrt 0 1) /
    (farApart age : Sim ℝ).distanceThreshold) *
      (((farApart age : Sim ℝ).heap 0).age * ((farApart age : Sim ℝ).heap 1).age) = _
  rw [farApart_pixelDistance, farApart, twoNodes_distanceThreshold, twoNodes_heap_zero,
    twoNodes_heap_one]
  norm_num

theorem afterNodes_twoNodes (a b : Node K) :
    afterNodes (twoNodes a b) = updateNodesBody (updateNodesBody (twoNodes a b) 0) 1 :=
  rfl

theorem leaving_respawns : ((leaving : Sim K).heap ((leaving : Sim K).nodes.getD 0 0)).Respawns := by
  right; left
  show (0.995 : K) + 0.01 ≥ 1
  norm_num

theorem afterNodes_leaving_zero :
    ((afterNodes (leaving : Sim K)).heap 0).x = 0 ∧ ((afterNodes (leaving : Sim K)).heap 0).y = 0 := by
  have h0 : (afterNodes (leaving : Sim K)).heap 0 =
      (Node.update 1000 1000 ((leaving : Sim K).heap 0) (fun _ => 0)).1 := rfl
  obtain ⟨k, _, hk, _⟩ := Node.update_fresh_of_respawn (1000 : K) 1000
    ((leaving : Sim K).heap 0) (fun _ => 0) leaving_respawns
  rw [h0]
  exact ⟨hk.2.1, hk.2.2.1⟩

theorem afterNodes_leaving_one :
    ((afterNodes (leaving : Sim K)).heap 1).x = 0.5 ∧
      ((afterNodes (leaving : Sim K)).heap 1).y = 0.5 := by
  have h1 : (afterNodes (leaving : Sim K)).heap 1 =
      (Node.update 1000 1000 ((leaving : Sim K).heap 1)
        (updateNodesBody (leaving : Sim K) 0).rng).1 := rfl
  have hx : (0 : K) < 0.5 + 0 ∧ (0.5 : K) + 0 < 1 := by constructor <;> norm_num
  rw [h1, Node.update_of_inside (1000 : K) 1000 ((leaving : Sim K).heap 1) _ hx hx]
  constructor
  · show (0.5 : K) + 0 = 0.5
    norm_num
  · show (0.5 : K) + 0 = 0.5
    norm_num

theorem afterNodes_leaving_pixelDistance :
    (afterNodes (leaving : Sim ℝ)).pixelDistance Real.sqrt 0 1 < 800 := by
  unfold Sim.pixelDistance Node.distanceTo
  rw [afterNodes_leaving_zero.1, afterNodes_leaving_zero.2, afterNodes_leaving_one.1,
    afterNodes_leaving_one.2]
  have hw : (afterNodes (leaving : Sim ℝ)).width = 1000 := rfl
  have hh : (afterNodes (leaving : Sim ℝ)).height = 1000 := rfl
  rw [hw, hh]
  simp only [if_true]
  rw [Real.sqrt_lt' (by norm_num)]
  norm_num

/-! ## Facts about the age -/

theorem Node.advance_age (n : Node K) :
    n.advance.age = if n.age ≤ 1 then n.age + 0.01 else n.age := by
  unfold Node.advance
  split_ifs <;> rfl

theorem Node.inside_of_not_respawns {n : Node K} (h : ¬ n.Respawns) :
    (0 < n.x + n.speedx ∧ n.x + n.speedx < 1) ∧ (0 < n.y + n.speedy ∧ n.y + n.speedy < 1) := by
  unfold Node.Respawns at h
  simp only [not_or, not_le, ge_iff_le] at h
  exact ⟨⟨h.1, h.2.1⟩, ⟨h.2.2.1, h.2.2.2⟩⟩

theorem Node.not_respawns_of_inside {n : Node K}
    (hx : 0 < n.x + n.speedx ∧ n.x + n.speedx < 1)
    (hy : 0 < n.y + n.speedy ∧ n.y + n.speedy < 1) : ¬ n.Respawns := by
  unfold Node.Respawns
  simp only [not_or, not_le, ge_iff_le]
  exact ⟨hx.1, hx.2, hy.1, hy.2⟩

/-- The age `update` leaves: `0` after a respawn, else the old age raised by the
step when it was at most `1`. -/
theorem Node.update_age (width height : K) (n : Node K) (r : Rng K) :
    (Node.update width height n r).1.age =
      if n.Respawns then 0 else if n.age ≤ 1 then n.age + 0.01 else n.age := by
  by_cases h : n.Respawns
  · rw [if_pos h]
    exact Node.update_age_of_respawn width height n r h
  · rw [if_neg h]
    obtain ⟨hx, hy⟩ := Node.inside_of_not_respawns h
    rw [Node.update_of_inside width height n r hx hy]
    exact Node.advance_age n

theorem Node.update_age_nonneg (width height : K) (n : Node K) (r : Rng K) (h0 : 0 ≤ n.age) :
    0 ≤ (Node.update width height n r).1.age := by
  rw [Node.update_age]
  split_ifs
  · exact le_refl _
  · have : (0 : K) ≤ 0.01 := by norm_num
    linarith
  · exact h0

theorem Node.update_age_le_cap (width height : K) (n : Node K) (r : Rng K)
    (h1 : n.age ≤ 1.01) : (Node.update width height n r).1.age ≤ 1.01 := by
  rw [Node.update_age]
  split_ifs with _ ha
  · norm_num
  · have : (1 : K) + 0.01 = 1.01 := by norm_num
    linarith
  · exact h1

theorem Node.updateN_age_bounds (width height : K) (k : Nat) (n : Node K) (r : Rng K)
    (h0 : 0 ≤ n.age) (h1 : n.age ≤ 1.01) :
    0 ≤ (Node.updateN width height k n r).1.age ∧
      (Node.updateN width height k n r).1.age ≤ 1.01 := by
  induction k generalizing n r with
  | zero => exact ⟨h0, h1⟩
  | succ k ih =>
    exact ih (Node.update width height n r).1 (Node.update width height n r).2
      (Node.update_age_nonneg width height n r h0) (Node.update_age_le_cap width height n r h1)

theorem Node.updateCounting_fst (width height : K) (n : Node K) (r : Rng K) :
    (Node.updateCounting width height n r).1 = Node.update width height n r := by
  unfold Node.updateCounting Node.update
  by_cases ha : n.age ≤ 1 <;> simp only [ha, if_true, if_false] <;>
    split_ifs <;> rfl

theorem Node.updateCounting_snd (width height : K) (n : Node K) (r : Rng K) :
    (Node.updateCounting width height n r).2 =
      (if n.advance.OffX then 1 else 0) +
        (if (if n.advance.OffX then Node.spawn width height n.advance r
            else (n.advance, r)).1.OffY then 1 else 0) := by
  unfold Node.updateCounting Node.advance Node.OffX Node.OffY
  by_cases ha : n.age ≤ 1 <;> simp only [ha, if_true, if_false] <;>
    split_ifs <;> rfl

theorem Node.updateCounting_pos_iff (width height : K) (n : Node K) (r : Rng K) :
    0 < (Node.updateCounting width height n r).2 ↔ n.Respawns := by
  rw [Node.updateCounting_snd]
  unfold Node.Respawns
  by_cases hx : n.advance.OffX
  · rw [if_pos hx]
    constructor
    · intro _
      unfold Node.OffX at hx
      rw [Node.advance_x] at hx
      rcases hx with h | h
      · exact Or.inl h
      · exact Or.inr (Or.inl h)
    · intro _
      exact Nat.lt_of_lt_of_le Nat.one_pos (Nat.le_add_right 1 _)
  · rw [if_neg hx, if_neg hx]
    have hx' := hx
    unfold Node.OffX at hx'
    rw [Node.advance_x] at hx'
    by_cases hy : n.advance.OffY
    · rw [if_pos hy]
      have hy' := hy
      unfold Node.OffY at hy'
      rw [Node.advance_y] at hy'
      constructor
      · intro _
        rcases hy' with h | h
        · exact Or.inr (Or.inr (Or.inl h))
        · exact Or.inr (Or.inr (Or.inr h))
      · intro _
        exact Nat.one_pos
    · rw [if_neg hy]
      have hy' := hy
      unfold Node.OffY at hy'
      rw [Node.advance_y] at hy'
      constructor
      · intro h
        exact absurd h (Nat.lt_irrefl 0)
      · intro h
        rcases h with h | h | h | h
        · exact absurd (Or.inl h) hx'
        · exact absurd (Or.inr h) hx'
        · exact absurd (Or.inl h) hy'
        · exact absurd (Or.inr h) hy'

theorem Node.distanceTo_pixels (width height : ℝ) (a b : Node ℝ) :
    Node.distanceTo Real.sqrt width height a b true =
      Real.sqrt (width ^ 2 * (a.x - b.x) ^ 2 + height ^ 2 * (a.y - b.y) ^ 2) := by
  unfold Node.distanceTo
  simp only [if_true]
  congr 1
  ring

theorem pixelDistance_nonneg (s : Sim ℝ) (a b : Nat) : 0 ≤ s.pixelDistance Real.sqrt a b := by
  unfold Sim.pixelDistance
  rw [Node.distanceTo_pixels]
  exact Real.sqrt_nonneg _

/-- The factor `(threshold - d) / threshold` for a distance `0 ≤ d < threshold`. -/
theorem factor_bounds {d thr : ℝ} (h0 : 0 ≤ d) (h : d < thr) :
    0 < (thr - d) / thr ∧ (thr - d) / thr ≤ 1 := by
  have hthr : 0 < thr := lt_of_le_of_lt h0 h
  constructor
  · exact div_pos (by linarith) hthr
  · rw [div_le_one hthr]
    linarith

theorem threshold_pos_of_mem_rebuiltEdges {s : Sim ℝ} {e : Edge ℝ}
    (he : e ∈ rebuiltEdges Real.sqrt s) :
    0 ≤ s.pixelDistance Real.sqrt e.startNode e.endNode ∧
      s.pixelDistance Real.sqrt e.startNode e.endNode < s.distanceThreshold := by
  obtain ⟨p, ⟨_, hq⟩, rfl⟩ := mem_rebuiltEdges.1 he
  exact ⟨pixelDistance_nonneg s _ _, hq.2⟩

/-- The bounds on `alpha = f * (a * b)` for a factor `0 < f ≤ 1` and ages
`a, b ≥ 0`. -/
theorem alpha_bounds_of_factor {f a b : ℝ} (hf : 0 < f ∧ f ≤ 1) (ha : 0 ≤ a) (hb : 0 ≤ b) :
    0 ≤ f * (a * b) ∧ f * (a * b) ≤ a * b ∧ (0 < f * (a * b) ↔ 0 < a ∧ 0 < b) := by
  have hab : 0 ≤ a * b := mul_nonneg ha hb
  refine ⟨mul_nonneg hf.1.le hab, ?_, ?_⟩
  · exact mul_le_of_le_one_left hab hf.2
  · constructor
    · intro h
      have hp : 0 < a * b := (mul_pos_iff_of_pos_left hf.1).1 h
      constructor
      · rcases ha.eq_or_lt with h0 | h0
        · rw [← h0, zero_mul] at hp
          exact absurd hp (lt_irrefl 0)
        · exact h0
      · rcases hb.eq_or_lt with h0 | h0
        · rw [← h0, mul_zero] at hp
          exact absurd hp (lt_irrefl 0)
        · exact h0
    · intro h
      exact mul_pos hf.1 (mul_pos h.1 h.2)

theorem afterNodes_eq (s : Sim K) :
    afterNodes s = (List.range s.nodes.length).foldl updateNodesBody s :=
  rfl

theorem update_edges_afterNodes (sqrt : K → K) (s : Sim K) :
    (update sqrt s).edges =
      (updateEdges sqrt (afterNodes s)).edges.map
        (Edge.draw sqrt (updateEdges sqrt (afterNodes s))) :=
  rfl

theorem update_heap (sqrt : K → K) (s : Sim K) : (update sqrt s).heap = (afterNodes s).heap :=
  rfl

theorem update_distanceThreshold (sqrt : K → K) (s : Sim K) :
    (update sqrt s).distanceThreshold = s.distanceThreshold :=
  foldl_updateNodesBody_distanceThreshold _ s

/-! ## Facts about `createNodes` -/

theorem createNodesBody_amountOfNodes (s : Sim K) :
    (createNodesBody s).amountOfNodes = s.amountOfNodes := rfl

theorem createNodesBody_next (s : Sim K) : (createNodesBody s).next = s.next + 1 := rfl

theorem createNodesBody_nodes (s : Sim K) : (createNodesBody s).nodes = s.nodes ++ [s.next] :=
  rfl

theorem createNodesBody_rng (s : Sim K) : (createNodesBody s).rng = fun i => s.rng (i + 4) :=
  rfl

theorem createNodesBody_heap (s : Sim K) :
    (createNodesBody s).heap =
      Function.update s.heap s.next (Node.spawn s.width s.height Node.new s.rng).1 :=
  rfl

/-- The state after `k` runs of the body of the loop of `createNodes`. -/
theorem iterate_createNodesBody (k : Nat) (s : Sim K) :
    (createNodesBody^[k] s).amountOfNodes = s.amountOfNodes ∧
    (createNodesBody^[k] s).width = s.width ∧
    (createNodesBody^[k] s).height = s.height ∧
    (createNodesBody^[k] s).distanceThreshold = s.distanceThreshold ∧
    (createNodesBody^[k] s).edges = s.edges ∧
    (createNodesBody^[k] s).next = s.next + k ∧
    (createNodesBody^[k] s).nodes = s.nodes ++ List.range' s.next k ∧
    (createNodesBody^[k] s).rng = (fun i => s.rng (i + 4 * k)) ∧
    (∀ j, j < k →
      ((createNodesBody^[k] s).heap (s.next + j)).IsFreshAt s.width s.height s.rng (4 * j)) ∧
    (∀ a, a < s.next → (createNodesBody^[k] s).heap a = s.heap a) := by
  induction k with
  | zero =>
    refine ⟨rfl, rfl, rfl, rfl, rfl, rfl, ?_, rfl, ?_, fun _ _ => rfl⟩
    · simp
    · intro j hj
      exact absurd hj (Nat.not_lt_zero j)
  | succ k ih =>
    obtain ⟨h1, h2, h3, h4, h5, h6, h7, h8, h9, h10⟩ := ih
    rw [Function.iterate_succ_apply']
    refine ⟨h1, h2, h3, h4, h5, ?_, ?_, ?_, ?_, ?_⟩
    · rw [createNodesBody_next, h6]
      rfl
    · rw [createNodesBody_nodes, h7, h6, List.append_assoc, List.range'_concat, Nat.one_mul]
    · rw [createNodesBody_rng, h8]
      funext i
      show s.rng (i + 4 + 4 * k) = s.rng (i + 4 * (k + 1))
      congr 1
      omega
    · intro j hj
      rw [createNodesBody_heap, h6, h2, h3, h8]
      by_cases hjk : j = k
      · subst hjk
        rw [Function.update_same]
        exact Node.spawn_fresh s.width s.height Node.new s.rng (4 * j)
      · rw [Function.update_noteq (by omega)]
        exact h9 j (by omega)
    · intro a ha
      rw [createNodesBody_heap, h6, Function.update_noteq (by omega)]
      exact h10 a ha

/-- With the loop condition true exactly below `n`, the loop started at `i ≤ n`
with more than `n - i` units of fuel runs its body `n - i` times. -/
theorem createNodesLoop_eq (n : Nat) (fuel i : Nat) (s : Sim K)
    (hcond : ∀ j : Nat, (j : K) < s.amountOfNodes ↔ j < n) (hi : i ≤ n) (hfuel : n - i < fuel) :
    createNodesLoop fuel i s = some (createNodesBody^[n - i] s) := by
  induction fuel generalizing i s with
  | zero => exact absurd hfuel (Nat.not_lt_zero _)
  | succ fuel ih =>
    unfold createNodesLoop
    by_cases hlt : i < n
    · rw [if_pos ((hcond i).2 hlt)]
      rw [ih (i + 1) (createNodesBody s) hcond hlt (by omega)]
      have e : n - i = (n - (i + 1)) + 1 := by omega
      rw [e, Function.iterate_succ_apply]
    · rw [if_neg (fun h => hlt ((hcond i).1 h))]
      have e : n - i = 0 := by omega
      rw [e]
      rfl

/-- The loop condition of `createNodes` on a surface of `w` by `h` pixels. -/
theorem amount_lt_iff (w h j : Nat) :
    (j : K) < ((w : K) * (h : K)) / (INVERSE_NODE_DENSITY : K) ↔ j < (w * h + 9999) / 10000 := by
  have hpos : (0 : K) < (INVERSE_NODE_DENSITY : K) := by
    unfold INVERSE_NODE_DENSITY
    norm_num
  rw [lt_div_iff₀ hpos]
  have e : (j : K) * (INVERSE_NODE_DENSITY : K) < (w : K) * (h : K) ↔ j * 10000 < w * h := by
    unfold INVERSE_NODE_DENSITY
    rw [← Nat.cast_mul, ← Nat.cast_mul, Nat.cast_lt]
  rw [e]
  generalize w * h = m
  omega

theorem createNodes_eq (w h fuel : Nat) (s : Sim K) (hw : s.width = w) (hh : s.height = h)
    (hfuel : (w * h + 9999) / 10000 < fuel) :
    createNodes fuel s =
      some (createNodesBody^[(w * h + 9999) / 10000]
        { s with amountOfNodes := (s.width * s.height) / (INVERSE_NODE_DENSITY : K) }) := by
  unfold createNodes
  have h := createNodesLoop_eq ((w * h + 9999) / 10000) fuel 0
    { s with amountOfNodes := (s.width * s.height) / (INVERSE_NODE_DENSITY : K) }
    (by intro j; show (j : K) < (s.width * s.height) / _ ↔ _; rw [hw, hh]; exact amount_lt_iff w h j)
    (Nat.zero_le _) (by omega)
  rw [Nat.sub_zero] at h
  exact h

theorem ceilDiv_eq_of_dvd (m : Nat) (h : 10000 ∣ m) : (m + 9999) / 10000 = m / 10000 := by
  obtain ⟨c, rfl⟩ := h
  omega

theorem ceilDiv_eq_succ_of_not_dvd (m : Nat) (h : ¬ 10000 ∣ m) :
    (m + 9999) / 10000 = m / 10000 + 1 := by
  have : m % 10000 ≠ 0 := fun e => h (Nat.dvd_of_mod_eq_zero e)
  omega

/-- What `createNodes` leaves when it starts from an empty array `nodes`. -/
theorem createNodes_from_empty (w h fuel : Nat) (s : Sim K) (hw : s.width = w)
    (hh : s.height = h) (hn : s.nodes = []) (hfuel : (w * h + 9999) / 10000 < fuel) :
    ∃ s', createNodes fuel s = some s' ∧
      s'.nodes = List.range' s.next ((w * h + 9999) / 10000) ∧
      s'.width = s.width ∧ s'.height = s.height ∧
      s'.distanceThreshold = s.distanceThreshold ∧ s'.edges = s.edges ∧
      ∀ j, j < (w * h + 9999) / 10000 →
        (s'.heap (s.next + j)).IsFreshAt s.width s.height s.rng (4 * j) := by
  refine ⟨_, createNodes_eq w h fuel s hw hh hfuel, ?_⟩
  obtain ⟨_, h2, h3, h4, h5, _, h7, _, h9, _⟩ := iterate_createNodesBody ((w * h + 9999) / 10000)
    { s with amountOfNodes := (s.width * s.height) / (INVERSE_NODE_DENSITY : K) }
  refine ⟨?_, h2, h3, h4, h5, h9⟩
  rw [h7]
  show s.nodes ++ _ = _
  rw [hn, List.nil_append]

/-! ## Facts about the checked tick -/

theorem checkedIndex_of_lt {α : Type} (l : List α) (d : α) {i : Nat} (h : i < l.length) :
    checkedIndex l i = .ok (l.getD i d) := by
  unfold checkedIndex
  rw [List.getElem?_eq_getElem h, List.getD_eq_getElem l d h]

theorem checkedDiv_of_ne (a : K) {b : K} (hb : b ≠ 0) : checkedDiv a b = .ok (a / b) := by
  unfold checkedDiv
  rw [if_neg hb]

theorem Node.spawnChecked_eq (width height : K) (n : Node K) (r : Rng K)
    (hw : width ≠ 0) (hh : height ≠ 0) :
    Node.spawnChecked width height n r = .ok (Node.spawn width height n r) := by
  unfold Node.spawnChecked Node.spawn
  simp only [checkedDiv_of_ne _ hw, checkedDiv_of_ne _ hh, bind, Except.bind, pure, Except.pure]

theorem Node.updateChecked_eq (width height : K) (n : Node K) (r : Rng K)
    (hw : width ≠ 0) (hh : height ≠ 0) :
    Node.updateChecked width height n r = .ok (Node.update width height n r) := by
  unfold Node.updateChecked Node.update
  simp only [Node.spawnChecked_eq _ _ _ _ hw hh, bind, Except.bind, pure, Except.pure]
  by_cases ha : n.age ≤ 1 <;> simp only [ha, if_true, if_false] <;>
    split_ifs <;> rfl

theorem updateNodesBodyChecked_eq (s : Sim K) {i : Nat} (hi : i < s.nodes.length)
    (hw : s.width ≠ 0) (hh : s.height ≠ 0) :
    updateNodesBodyChecked s i = .ok (updateNodesBody s i) := by
  unfold updateNodesBodyChecked updateNodesBody
  simp only [checkedIndex_of_lt s.nodes 0 hi, Node.updateChecked_eq _ _ _ _ hw hh, bind,
    Except.bind, pure, Except.pure]

theorem updateNodesBody_width (s : Sim K) (i : Nat) : (updateNodesBody s i).width = s.width :=
  rfl

theorem updateNodesBody_height (s : Sim K) (i : Nat) : (updateNodesBody s i).height = s.height :=
  rfl

theorem foldlM_updateNodesBodyChecked (l : List Nat) (s : Sim K)
    (hl : ∀ i ∈ l, i < s.nodes.length) (hw : s.width ≠ 0) (hh : s.height ≠ 0) :
    l.foldlM updateNodesBodyChecked s = .ok (l.foldl updateNodesBody s) := by
  induction l generalizing s with
  | nil => rfl
  | cons i l ih =>
    rw [List.foldlM_cons, updateNodesBodyChecked_eq s (hl i (List.mem_cons_self i l)) hw hh]
    show l.foldlM updateNodesBodyChecked (updateNodesBody s i) = _
    rw [List.foldl_cons]
    exact ih (updateNodesBody s i) (fun j hj => hl j (List.mem_cons_of_mem i hj)) hw hh

theorem updateEdgesBodyChecked_eq (sqrt : K → K) (s : Sim K) {i j : Nat}
    (hi : i < s.nodes.length) (hj : j < s.nodes.length) (edges : List (Edge K)) :
    updateEdgesBodyChecked sqrt s i j edges = .ok (updateEdgesBody sqrt s i j edges) := by
  unfold updateEdgesBodyChecked updateEdgesBody
  simp only [checkedIndex_of_lt s.nodes 0 hi, checkedIndex_of_lt s.nodes 0 hj, bind,
    Except.bind, pure, Except.pure]
  split_ifs <;> rfl

theorem foldlM_updateEdgesBodyChecked (sqrt : K → K) (s : Sim K) {i : Nat}
    (hi : i < s.nodes.length) (l : List Nat) (hl : ∀ j ∈ l, j < s.nodes.length)
    (edges : List (Edge K)) :
    l.foldlM (fun edges j => updateEdgesBodyChecked sqrt s i j edges) edges =
      .ok (l.foldl (fun edges j => updateEdgesBody sqrt s i j edges) edges) := by
  induction l generalizing edges with
  | nil => rfl
  | cons j l ih =>
    rw [List.foldlM_cons, updateEdgesBodyChecked_eq sqrt s hi (hl j (List.mem_cons_self j l))]
    show l.foldlM _ (updateEdgesBody sqrt s i j edges) = _
    rw [List.foldl_cons]
    exact ih (fun k hk => hl k (List.mem_cons_of_mem j hk)) _

theorem foldlM_foldlM_updateEdgesBodyChecked (sqrt : K → K) (s : Sim K) (l l' : List Nat)
    (hl : ∀ i ∈ l, i < s.nodes.length) (hl' : ∀ j ∈ l', j < s.nodes.length)
    (edges : List (Edge K)) :
    l.foldlM (fun edges i => l'.foldlM
        (fun edges j => updateEdgesBodyChecked sqrt s i j edges) edges) edges =
      .ok (l.foldl (fun edges i => l'.foldl
        (fun edges j => updateEdgesBody sqrt s i j edges) edges) edges) := by
  induction l generalizing edges with
  | nil => rfl
  | cons i l ih =>
    rw [List.foldlM_cons,
      foldlM_updateEdgesBodyChecked sqrt s (hl i (List.mem_cons_self i l)) l' hl']
    show l.foldlM _ (l'.foldl (fun edges j => updateEdgesBody sqrt s i j edges) edges) = _
    rw [List.foldl_cons]
    exact ih (fun k hk => hl k (List.mem_cons_of_mem i hk)) _

/-- The checked `updateEdges` never reports a fault. -/
theorem updateEdgesChecked_eq (sqrt : K → K) (s : Sim K) :
    updateEdgesChecked sqrt s = .ok (updateEdges sqrt s) := by
  unfold updateEdgesChecked updateEdges
  simp only [bind, Except.bind, pure, Except.pure]
  rw [foldlM_foldlM_updateEdgesBodyChecked sqrt s _ _ (fun i hi => List.mem_range.1 hi)
    (fun j hj => List.mem_range.1 hj)]

theorem Edge.drawChecked_eq (sqrt : K → K) (s : Sim K) (e : Edge K)
    (hthr : s.distanceThreshold ≠ 0) :
    Edge.drawChecked sqrt s e = .ok (Edge.draw sqrt s e) := by
  unfold Edge.drawChecked Edge.draw Edge.calculateAlphaChecked Edge.calculateAlpha
  simp only [checkedDiv_of_ne _ hthr, bind, Except.bind, pure, Except.pure]

theorem drawEdgesLoop_eq (sqrt : K → K) (s : Sim K) (hthr : s.distanceThreshold ≠ 0)
    (l : List Nat) (hl : ∀ i ∈ l, i < s.edges.length) :
    drawEdgesLoop sqrt s l =
      .ok (l.map (fun i => Edge.draw sqrt s (s.edges.getD i (Edge.new 0 0)))) := by
  induction l with
  | nil => rfl
  | cons i l ih =>
    unfold drawEdgesLoop
    rw [ih (fun k hk => hl k (List.mem_cons_of_mem i hk))]
    simp only [checkedIndex_of_lt s.edges (Edge.new 0 0) (hl i (List.mem_cons_self i l)),
      Edge.drawChecked_eq sqrt s _ hthr, bind, Except.bind, pure, Except.pure, List.map_cons]

theorem map_getD_range_edges (f : Edge K → Edge K) (l : List (Edge K)) :
    (List.range l.length).map (fun i => f (l.getD i (Edge.new 0 0))) = l.map f := by
  apply List.ext_getElem
  · simp
  · intro n h₁ h₂
    simp only [List.getElem_map, List.getElem_range]
    have h : n < l.length := by simpa using h₂
    rw [List.getD_eq_getElem l _ h]

/-- The last loop of the checked tick reports no fault when the threshold is
not zero or there is no edge to draw. -/
theorem drawEdgesLoop_range (sqrt : K → K) (s : Sim K)
    (h : s.distanceThreshold ≠ 0 ∨ s.edges = []) :
    drawEdgesLoop sqrt s (List.range s.edges.length) =
      .ok (s.edges.map (Edge.draw sqrt s)) := by
  rcases h with h | h
  · rw [drawEdgesLoop_eq sqrt s h _ (fun i hi => List.mem_range.1 hi), map_getD_range_edges]
  · rw [h]
    rfl

theorem nodesPhaseChecked_eq (s : Sim K) (hn : (s.width ≠ 0 ∧ s.height ≠ 0) ∨ s.nodes = []) :
    (List.range s.nodes.length).foldlM updateNodesBodyChecked s = .ok (afterNodes s) := by
  rcases hn with ⟨hw, hh⟩ | hn
  · exact foldlM_updateNodesBodyChecked _ s (fun i hi => List.mem_range.1 hi) hw hh
  · unfold afterNodes
    rw [hn]
    rfl

/-- The checked tick agrees with the tick whenever no division by zero is
reached: nodes only on a surface with non-zero sides, edges only with a
non-zero threshold. -/
theorem tickChecked_eq (sqrt : K → K) (s : Sim K)
    (hn : (s.width ≠ 0 ∧ s.height ≠ 0) ∨ s.nodes = [])
    (hd : s.distanceThreshold ≠ 0 ∨ (updateEdges sqrt (afterNodes s)).edges = []) :
    updateChecked sqrt s = .ok (update sqrt s) := by
  unfold updateChecked
  rw [nodesPhaseChecked_eq s hn]
  simp only [bind, Except.bind, pure, Except.pure, updateEdgesChecked_eq]
  have hthr : (updateEdges sqrt (afterNodes s)).distanceThreshold = s.distanceThreshold :=
    foldl_updateNodesBody_distanceThreshold _ s
  rw [drawEdgesLoop_range sqrt (updateEdges sqrt (afterNodes s)) (by rw [hthr]; exact hd)]
  rfl

theorem afterNodes_of_no_nodes (s : Sim K) (hn : s.nodes = []) : afterNodes s = s := by
  unfold afterNodes
  rw [hn]
  rfl

theorem updateEdges_of_no_nodes (sqrt : K → K) (s : Sim K) (hn : s.nodes = []) :
    updateEdges sqrt s = { s with edges := [] } := by
  unfold updateEdges
  rw [hn]
  rfl

theorem update_of_no_nodes (sqrt : K → K) (s : Sim K) (hn : s.nodes = []) :
    update sqrt s = { s with edges := [] } := by
  have h : update sqrt s =
      { updateEdges sqrt (afterNodes s) with
        edges := (updateEdges sqrt (afterNodes s)).edges.map
          (Edge.draw sqrt (updateEdges sqrt (afterNodes s))) } := rfl
  rw [h, afterNodes_of_no_nodes s hn, updateEdges_of_no_nodes sqrt s hn]
  rfl

theorem updateChecked_of_no_nodes (sqrt : K → K) (s : Sim K) (hn : s.nodes = []) :
    updateChecked sqrt s = .ok (update sqrt s) := by
  apply tickChecked_eq sqrt s (Or.inr hn)
  right
  rw [afterNodes_of_no_nodes s hn, updateEdges_of_no_nodes sqrt s hn]

/-- Without nodes every number of ticks runs without a fault and leaves the
node and edge collections empty. -/
theorem ticks_of_no_nodes (sqrt : K → K) (k : Nat) (s : Sim K) (hn : s.nodes = [])
    (he : s.edges = []) :
    ticksChecked sqrt k s = .ok (ticks sqrt k s) ∧ (ticks sqrt k s).nodes = [] ∧
      (ticks sqrt k s).edges = [] := by
  induction k generalizing s with
  | zero => exact ⟨rfl, hn, he⟩
  | succ k ih =>
    have hu : update sqrt s = { s with edges := [] } := update_of_no_nodes sqrt s hn
    have h := ih (update sqrt s) (by rw [hu]; exact hn) (by rw [hu])
    refine ⟨?_, h.2.1, h.2.2⟩
    unfold ticksChecked
    rw [updateChecked_of_no_nodes sqrt s hn]
    exact h.1

theorem rebuiltEdges_eq_nil_of_threshold_nonpos (s : Sim ℝ) (h : s.distanceThreshold ≤ 0) :
    rebuiltEdges Real.sqrt s = [] := by
  apply List.eq_nil_iff_forall_not_mem.2
  intro e he
  obtain ⟨hd0, hd⟩ := threshold_pos_of_mem_rebuiltEdges he
  linarith

/-- Over the reals the edge loop of the checked tick never divides by zero: an
edge exists only under a positive threshold. -/
theorem updateChecked_real (s : Sim ℝ) (hn : (s.width ≠ 0 ∧ s.height ≠ 0) ∨ s.nodes = []) :
    updateChecked Real.sqrt s = .ok (update Real.sqrt s) := by
  apply tickChecked_eq Real.sqrt s hn
  by_cases h : s.distanceThreshold ≤ 0
  · right
    rw [updateEdges_edges]
    apply rebuiltEdges_eq_nil_of_threshold_nonpos
    have hthr : (afterNodes s).distanceThreshold = s.distanceThreshold :=
      foldl_updateNodesBody_distanceThreshold _ s
    rw [hthr]
    exact h
  · left
    exact fun e => h (le_of_eq e)

/-! ## The properties of the specification -/

/-- C2: every edge in the collection produced by `updateEdges` joins two nodes of
the node collection that are different objects and whose pixel distance
`distanceTo(.., true)`, in the state `updateEdges` returns, is strictly less
than `distanceThreshold`. -/
theorem updateEdges_sound (sqrt : K → K) (s : Sim K) (e : Edge K)
    (he : e ∈ (updateEdges sqrt s).edges) :
    e.startNode ∈ (updateEdges sqrt s).nodes ∧ e.endNode ∈ (updateEdges sqrt s).nodes ∧
    e.startNode ≠ e.endNode ∧
    Node.distanceTo sqrt (updateEdges sqrt s).width (updateEdges sqrt s).height
        ((updateEdges sqrt s).heap e.startNode) ((updateEdges sqrt s).heap e.endNode) true <
      (updateEdges sqrt s).distanceThreshold := by
  rw [updateEdges_edges, mem_rebuiltEdges] at he
  obtain ⟨p, ⟨hp, hq⟩, rfl⟩ := he
  have hlt := mem_indexPairs.1 hp
  exact ⟨getD_mem_of_lt hlt.1, getD_mem_of_lt hlt.2, hq.1, hq.2⟩

theorem updateEdges_sound_witness :
    Edge.new 0 1 ∈ (updateEdges Real.sqrt (scenarioA : Sim ℝ)).edges ∧
    (Edge.new 0 1 : Edge ℝ).startNode ≠ (Edge.new 0 1 : Edge ℝ).endNode ∧
    Node.distanceTo Real.sqrt (updateEdges Real.sqrt (scenarioA : Sim ℝ)).width
        (updateEdges Real.sqrt (scenarioA : Sim ℝ)).height
        ((updateEdges Real.sqrt (scenarioA : Sim ℝ)).heap (Edge.new 0 1 : Edge ℝ).startNode)
        ((updateEdges Real.sqrt (scenarioA : Sim ℝ)).heap (Edge.new 0 1 : Edge ℝ).endNode) true <
      (updateEdges Real.sqrt (scenarioA : Sim ℝ)).distanceThreshold :=
  have hmem : Edge.new 0 1 ∈ (updateEdges Real.sqrt (scenarioA : Sim ℝ)).edges := by
    rw [updateEdges_edges, mem_rebuiltEdges]
    refine ⟨(0, 1), ⟨mem_indexPairs.2 ⟨by decide, by decide⟩, ?_, ?_⟩, rfl⟩
    · show (0 : Nat) ≠ 1
      decide
    · show (scenarioA : Sim ℝ).pixelDistance Real.sqrt 0 1 < (scenarioA : Sim ℝ).distanceThreshold
      rw [scenarioA_pixelDistance, scenarioA, twoNodes_distanceThreshold]
      norm_num
  ⟨hmem, (updateEdges_sound Real.sqrt scenarioA (Edge.new 0 1) hmem).2.2⟩

/-- C3: whatever the edge collection held before, `updateEdges` leaves exactly
one new edge for each ordered pair of indices `(i, j)` whose slots hold
different nodes at pixel distance below `distanceThreshold`, in lexicographic
order, and nothing else.  With the slots holding pairwise different nodes,
different nodes means `i ≠ j`, no edge occurs twice, and a qualifying pair
gives exactly one edge in each direction.  The number of edges is even, and two
nodes at one position with a positive threshold give exactly two edges. -/
theorem updateEdges_complete (s : Sim ℝ) :
    (updateEdges Real.sqrt s).edges = rebuiltEdges Real.sqrt s ∧
    (∀ es : List (Edge ℝ),
      (updateEdges Real.sqrt { s with edges := es }).edges = (updateEdges Real.sqrt s).edges) ∧
    (s.nodes.Nodup →
      (∀ p ∈ indexPairs s, Qualifies Real.sqrt s p ↔
        p.1 ≠ p.2 ∧ s.pixelDistance Real.sqrt (s.nodes.getD p.1 0) (s.nodes.getD p.2 0) <
          s.distanceThreshold) ∧
      (updateEdges Real.sqrt s).edges.Nodup ∧
      ∀ i j, i < s.nodes.length → j < s.nodes.length → i ≠ j →
        s.pixelDistance Real.sqrt (s.nodes.getD i 0) (s.nodes.getD j 0) < s.distanceThreshold →
        (updateEdges Real.sqrt s).edges.count (Edge.new (s.nodes.getD i 0) (s.nodes.getD j 0)) = 1 ∧
        (updateEdges Real.sqrt s).edges.count (Edge.new (s.nodes.getD j 0) (s.nodes.getD i 0)) = 1) ∧
    Even (updateEdges Real.sqrt s).edges.length ∧
    (∀ a b : Nat, s.nodes = [a, b] → a ≠ b →
      (s.heap a).x = (s.heap b).x → (s.heap a).y = (s.heap b).y → 0 < s.distanceThreshold →
      (updateEdges Real.sqrt s).edges = [Edge.new a b, Edge.new b a]) := by
  refine ⟨updateEdges_edges _ s, ?_, ?_, ?_, ?_⟩
  · intro es
    rw [updateEdges_edges, updateEdges_edges, rebuiltEdges_of_edges_update]
  · intro hnd
    refine ⟨fun p hp => Qualifies_iff_of_nodup hnd hp, ?_, ?_⟩
    · rw [updateEdges_edges]
      exact nodup_rebuiltEdges _ s hnd
    · intro i j hi hj hij hd
      have hq : Qualifies Real.sqrt s (i, j) :=
        (Qualifies_iff_of_nodup hnd (mem_indexPairs.2 ⟨hi, hj⟩)).2 ⟨hij, hd⟩
      rw [updateEdges_edges]
      constructor
      · exact List.count_eq_one_of_mem (nodup_rebuiltEdges _ s hnd)
          (mem_rebuiltEdges.2 ⟨(i, j), ⟨mem_indexPairs.2 ⟨hi, hj⟩, hq⟩, rfl⟩)
      · exact List.count_eq_one_of_mem (nodup_rebuiltEdges _ s hnd)
          (mem_rebuiltEdges.2 ⟨(j, i), ⟨mem_indexPairs.2 ⟨hj, hi⟩, hq.swap⟩, rfl⟩)
  · rw [updateEdges_edges]
    exact even_length_rebuiltEdges _ s
  · intro a b hn hab hx hy hthr
    have hp : indexPairs s = [(0, 0), (0, 1), (1, 0), (1, 1)] := by
      unfold indexPairs
      rw [hn]
      rfl
    have d01 : s.pixelDistance Real.sqrt a b = 0 :=
      pixelDistance_eq_zero_of_same_position s a b hx hy
    have d10 : s.pixelDistance Real.sqrt b a = 0 :=
      pixelDistance_eq_zero_of_same_position s b a hx.symm hy.symm
    have q00 : ¬ Qualifies Real.sqrt s (0, 0) := Qualifies.irrefl _ s 0
    have q11 : ¬ Qualifies Real.sqrt s (1, 1) := Qualifies.irrefl _ s 1
    have q01 : Qualifies Real.sqrt s (0, 1) := by
      unfold Qualifies
      rw [hn]
      exact ⟨hab, by show s.pixelDistance Real.sqrt a b < _; rw [d01]; exact hthr⟩
    have q10 : Qualifies Real.sqrt s (1, 0) := by
      unfold Qualifies
      rw [hn]
      exact ⟨fun e => hab e.symm, by show s.pixelDistance Real.sqrt b a < _; rw [d10]; exact hthr⟩
    rw [updateEdges_edges]
    unfold rebuiltEdges
    rw [hp]
    simp only [List.filter_cons, List.filter_nil, q00, q01, q10, q11, decide_True, decide_False,
      if_true, if_false, List.map_cons, List.map_nil, Bool.false_eq_true]
    unfold edgeAt
    rw [hn]
    rfl

theorem updateEdges_complete_witness :
    ((scenarioD : Sim ℝ).nodes.Nodup ∧ (scenarioD : Sim ℝ).nodes = [0, 1] ∧ (0 : Nat) ≠ 1 ∧
      ((scenarioD : Sim ℝ).heap 0).x = ((scenarioD : Sim ℝ).heap 1).x ∧
      ((scenarioD : Sim ℝ).heap 0).y = ((scenarioD : Sim ℝ).heap 1).y ∧
      0 < (scenarioD : Sim ℝ).distanceThreshold) ∧
    (updateEdges Real.sqrt (scenarioD : Sim ℝ)).edges = [Edge.new 0 1, Edge.new 1 0] ∧
    (updateEdges Real.sqrt (scenarioD : Sim ℝ)).edges.Nodup ∧
    Even (updateEdges Real.sqrt (scenarioD : Sim ℝ)).edges.length :=
  have hthr : 0 < (scenarioD : Sim ℝ).distanceThreshold := by
    rw [scenarioD, twoNodes_distanceThreshold]
    norm_num
  have hnd : (scenarioD : Sim ℝ).nodes.Nodup := by
    rw [scenarioD, twoNodes_nodes]
    decide
  ⟨⟨hnd, rfl, by decide, rfl, rfl, hthr⟩,
    (updateEdges_complete (scenarioD : Sim ℝ)).2.2.2.2 0 1 rfl (by decide) rfl rfl hthr,
    ((updateEdges_complete (scenarioD : Sim ℝ)).2.2.1 hnd).2.1,
    (updateEdges_complete (scenarioD : Sim ℝ)).2.2.2.1⟩

/-- C4: `calculateAlpha` sets `alpha` to
`((distanceThreshold - d) / distanceThreshold) * (startNode.age * endNode.age)`
with `d` the pixel distance of the two nodes and leaves the rest of the edge
alone; `init` sets `distanceThreshold = min(width, height) * 0.8`; on the
1000x1000 surface (threshold 800) the nodes at (0.1, 0.1) and (0.1, 0.1001),
both of age 1, get `alpha = (800 - 0.1)/800 = 0.999875`. -/
theorem Edge.calculateAlpha_spec (s : Sim ℝ) (e : Edge ℝ) (width height : ℝ) :
    (Edge.calculateAlpha Real.sqrt s e).alpha =
      ((s.distanceThreshold -
          Node.distanceTo Real.sqrt s.width s.height (s.heap e.startNode) (s.heap e.endNode) true) /
        s.distanceThreshold) * ((s.heap e.startNode).age * (s.heap e.endNode).age) ∧
    (Edge.calculateAlpha Real.sqrt s e).startNode = e.startNode ∧
    (Edge.calculateAlpha Real.sqrt s e).endNode = e.endNode ∧
    (init width height s).distanceThreshold = min width height * 0.8 ∧
    (scenarioA : Sim ℝ).width = 1000 ∧ (scenarioA : Sim ℝ).height = 1000 ∧
    (scenarioA : Sim ℝ).distanceThreshold = 800 ∧
    (Edge.calculateAlpha Real.sqrt scenarioA (Edge.new 0 1)).alpha = (800 - 0.1) / 800 ∧
    (Edge.calculateAlpha Real.sqrt scenarioA (Edge.new 0 1)).alpha = 0.999875 := by
  have hthr : (scenarioA : Sim ℝ).distanceThreshold = 800 := by
    rw [scenarioA, twoNodes_distanceThreshold]
  have halpha : (Edge.calculateAlpha Real.sqrt scenarioA (Edge.new 0 1)).alpha =
      (800 - 0.1) / 800 := by
    show (((scenarioA : Sim ℝ).distanceThreshold -
        (scenarioA : Sim ℝ).pixelDistance Real.sqrt 0 1) /
      (scenarioA : Sim ℝ).distanceThreshold) *
        (((scenarioA : Sim ℝ).heap 0).age * ((scenarioA : Sim ℝ).heap 1).age) = _
    rw [scenarioA_pixelDistance, hthr]
    simp [scenarioA, twoNodes_heap_zero, twoNodes_heap_one]
  refine ⟨rfl, rfl, rfl, rfl, rfl, rfl, hthr, halpha, ?_⟩
  rw [halpha]
  norm_num

/-- C5: in pixel mode and in normalized mode alike, `a.distanceTo(b)` equals
`b.distanceTo(a)`, is non-negative, and `a.distanceTo(a)` is `0`, for all nodes
and all surface dimensions. -/
theorem Node.distanceTo_symm_nonneg (width height : ℝ) (a b : Node ℝ) (inPixels : Bool) :
    Node.distanceTo Real.sqrt width height a b inPixels =
      Node.distanceTo Real.sqrt width height b a inPixels ∧
    0 ≤ Node.distanceTo Real.sqrt width height a b inPixels ∧
    Node.distanceTo Real.sqrt width height a a inPixels = 0 := by
  refine ⟨Node.distanceTo_comm _ _ _ _ _ _, ?_, ?_⟩
  · unfold Node.distanceTo
    split_ifs <;> exact Real.sqrt_nonneg _
  · unfold Node.distanceTo
    split_ifs <;> simp

/-- C6: when the advanced coordinate `x + speedx` or `y + speedy` lies outside
`[0, 1)`, `update` respawns the node: afterwards the age is `0` and `x`, `y`,
`speedx`, `speedy` are the four values of one call of `spawn` (read from the
draws at offset `0`, or at offset `4` when the spawn had to be repeated), and
with draws in `[0, 1)` the new `x` and `y` lie in `[0, 1)`. -/
theorem Node.update_respawns (width height : K) (n : Node K) (r : Rng K) (hr : r.Unit)
    (hout : ¬ (0 ≤ n.x + n.speedx ∧ n.x + n.speedx < 1) ∨
      ¬ (0 ≤ n.y + n.speedy ∧ n.y + n.speedy < 1)) :
    (Node.update width height n r).1.age = 0 ∧
    (∃ k, (k = 0 ∨ k = 4) ∧
      (Node.update width height n r).1.IsFreshAt width height r k ∧
      (Node.update width height n r).2 = fun i => r (i + (k + 4))) ∧
    (0 ≤ (Node.update width height n r).1.x ∧ (Node.update width height n r).1.x < 1 ∧
      0 ≤ (Node.update width height n r).1.y ∧ (Node.update width height n r).1.y < 1) := by
  have hresp : n.Respawns := by
    unfold Node.Respawns
    rcases hout with h | h
    · by_cases h0 : 0 ≤ n.x + n.speedx
      · exact Or.inr (Or.inl (not_lt.1 fun h1 => h ⟨h0, h1⟩))
      · exact Or.inl (not_le.1 h0).le
    · by_cases h0 : 0 ≤ n.y + n.speedy
      · exact Or.inr (Or.inr (Or.inr (not_lt.1 fun h1 => h ⟨h0, h1⟩)))
      · exact Or.inr (Or.inr (Or.inl (not_le.1 h0).le))
  exact ⟨Node.update_age_of_respawn width height n r hresp,
    Node.update_fresh_of_respawn width height n r hresp,
    Node.update_inUnitSquare width height n hr⟩

theorem Node.update_respawns_witness :
    (Rng.Unit (fun _ => (1 / 2 : ℚ)) ∧
      (¬ (0 ≤ (0.995 : ℚ) + 0.01 ∧ (0.995 : ℚ) + 0.01 < 1) ∨
        ¬ (0 ≤ (0.5 : ℚ) + 0 ∧ (0.5 : ℚ) + 0 < 1))) ∧
    (Node.update 1000 1000
        { (Node.new : Node ℚ) with x := 0.995, y := 0.5, speedx := 0.01, age := 1 }
        (fun _ => 1 / 2)).1.age = 0 :=
  ⟨⟨Rng.Unit.const_half, Or.inl (by norm_num)⟩,
    (Node.update_respawns 1000 1000
      { (Node.new : Node ℚ) with x := 0.995, y := 0.5, speedx := 0.01, age := 1 }
      (fun _ => 1 / 2) Rng.Unit.const_half (Or.inl (by norm_num [Node.new]))).1⟩

/-- C9 as stated fails: on the 1000x1000 surface (threshold 800) with the two
nodes 900 pixels apart and the end node of age 1, raising the age of the start
node from 0.5 to 1 lowers `alpha` from -0.0625 to -0.125. -/
theorem Edge.calculateAlpha_age_not_monotone_beyond_threshold :
    (farApart 0.5 : Sim ℝ).distanceThreshold = 800 ∧
    (farApart 1 : Sim ℝ).distanceThreshold = 800 ∧
    (farApart 0.5 : Sim ℝ).pixelDistance Real.sqrt 0 1 = 900 ∧
    (farApart 1 : Sim ℝ).pixelDistance Real.sqrt 0 1 = 900 ∧
    ((farApart 0.5 : Sim ℝ).heap 1).age = ((farApart 1 : Sim ℝ).heap 1).age ∧
    0 ≤ ((farApart 0.5 : Sim ℝ).heap 0).age ∧
    ((farApart 0.5 : Sim ℝ).heap 0).age ≤ ((farApart 1 : Sim ℝ).heap 0).age ∧
    (Edge.calculateAlpha Real.sqrt (farApart 0.5) (Edge.new 0 1)).alpha = -0.0625 ∧
    (Edge.calculateAlpha Real.sqrt (farApart 1) (Edge.new 0 1)).alpha = -0.125 ∧
    (Edge.calculateAlpha Real.sqrt (farApart 1) (Edge.new 0 1)).alpha <
      (Edge.calculateAlpha Real.sqrt (farApart 0.5) (Edge.new 0 1)).alpha := by
  refine ⟨twoNodes_distanceThreshold _ _, twoNodes_distanceThreshold _ _,
    farApart_pixelDistance _, farApart_pixelDistance _, rfl, ?_, ?_, ?_, ?_, ?_⟩
  · show (0 : ℝ) ≤ 0.5
    norm_num
  · show (0.5 : ℝ) ≤ 1
    norm_num
  · rw [farApart_alpha]; norm_num
  · rw [farApart_alpha]; norm_num
  · rw [farApart_alpha, farApart_alpha]; norm_num

/-- C9, amended: with the pixel distance fixed at a value not above the
threshold and the threshold fixed and positive, `alpha` is increasing in each
age: for non-negative ages, raising the age of the start node or of the end node
(the other one not lowered) never lowers `alpha`. -/
theorem Edge.calculateAlpha_monotone_age (sqrt : K → K) (s₁ s₂ : Sim K) (e₁ e₂ : Edge K)
    (hthr : s₁.distanceThreshold = s₂.distanceThreshold) (hpos : 0 < s₁.distanceThreshold)
    (hd : s₁.pixelDistance sqrt e₁.startNode e₁.endNode =
      s₂.pixelDistance sqrt e₂.startNode e₂.endNode)
    (hle : s₁.pixelDistance sqrt e₁.startNode e₁.endNode ≤ s₁.distanceThreshold)
    (h0 : 0 ≤ (s₁.heap e₁.startNode).age) (h1 : 0 ≤ (s₁.heap e₁.endNode).age)
    (hstart : (s₁.heap e₁.startNode).age ≤ (s₂.heap e₂.startNode).age)
    (hend : (s₁.heap e₁.endNode).age ≤ (s₂.heap e₂.endNode).age) :
    (Edge.calculateAlpha sqrt s₁ e₁).alpha ≤ (Edge.calculateAlpha sqrt s₂ e₂).alpha := by
  rw [Edge.calculateAlpha_alpha, Edge.calculateAlpha_alpha, ← hthr, ← hd]
  apply mul_le_mul_of_nonneg_left (mul_le_mul hstart hend h1 (h0.trans hstart))
  exact div_nonneg (by linarith) hpos.le

theorem Edge.calculateAlpha_monotone_age_witness :
    ((closePair 0.5 : Sim ℝ).distanceThreshold = (closePair 1 : Sim ℝ).distanceThreshold ∧
      0 < (closePair 0.5 : Sim ℝ).distanceThreshold ∧
      (closePair 0.5 : Sim ℝ).pixelDistance Real.sqrt 0 1 =
        (closePair 1 : Sim ℝ).pixelDistance Real.sqrt 0 1 ∧
      (closePair 0.5 : Sim ℝ).pixelDistance Real.sqrt 0 1 ≤
        (closePair 0.5 : Sim ℝ).distanceThreshold ∧
      ((closePair 0.5 : Sim ℝ).heap 0).age ≤ ((closePair 1 : Sim ℝ).heap 0).age) ∧
    (Edge.calculateAlpha Real.sqrt (closePair 0.5 : Sim ℝ) (Edge.new 0 1)).alpha ≤
      (Edge.calculateAlpha Real.sqrt (closePair 1 : Sim ℝ) (Edge.new 0 1)).alpha :=
  have hthr : 0 < (closePair 0.5 : Sim ℝ).distanceThreshold := by
    rw [closePair, twoNodes_distanceThreshold]
    norm_num
  have hd0 : (closePair 0.5 : Sim ℝ).pixelDistance Real.sqrt 0 1 = 0 :=
    pixelDistance_eq_zero_of_same_position _ 0 1 rfl rfl
  have hle : (closePair 0.5 : Sim ℝ).pixelDistance Real.sqrt 0 1 ≤
      (closePair 0.5 : Sim ℝ).distanceThreshold := by
    rw [hd0]
    exact hthr.le
  have hage : ((closePair 0.5 : Sim ℝ).heap 0).age ≤ ((closePair 1 : Sim ℝ).heap 0).age := by
    show (0.5 : ℝ) ≤ 1
    norm_num
  ⟨⟨rfl, hthr, rfl, hle, hage⟩,
    Edge.calculateAlpha_monotone_age Real.sqrt (closePair 0.5) (closePair 1) (Edge.new 0 1)
      (Edge.new 0 1) rfl hthr rfl hle (by show (0 : ℝ) ≤ 0.5; norm_num)
      (by show (0 : ℝ) ≤ 1; norm_num) hage (le_refl _)⟩

/-- C10: for a non-zero threshold, `calculateAlpha` yields `alpha = 0` as soon as
one of the two nodes has age `0`, whatever their distance; so after one tick
every edge that touches a node respawned by that tick has been drawn with
`alpha = 0`. -/
theorem Edge.alpha_zero_of_age_zero (sqrt : K → K) (s : Sim K)
    (_hthr : s.distanceThreshold ≠ 0) :
    (∀ e : Edge K, (s.heap e.startNode).age = 0 ∨ (s.heap e.endNode).age = 0 →
      (Edge.calculateAlpha sqrt s e).alpha = 0) ∧
    (s.nodes.Nodup → ∀ i, i < s.nodes.length → (s.heap (s.nodes.getD i 0)).Respawns →
      ∀ e ∈ (update sqrt s).edges,
        e.startNode = s.nodes.getD i 0 ∨ e.endNode = s.nodes.getD i 0 → e.alpha = 0) := by
  constructor
  · intro e h
    rw [Edge.calculateAlpha_alpha]
    rcases h with h | h <;> rw [h] <;> simp
  · intro hnd i hi hresp e he htouch
    have hl : ((List.range s.nodes.length).map (fun j => s.nodes.getD j 0)).Nodup := by
      rw [map_getD_range]
      exact hnd
    have hage := foldl_updateNodesBody_age_of_respawn (List.range s.nodes.length) s i hl
      (List.mem_range.2 hi) hresp
    rw [update_edges, List.mem_map] at he
    obtain ⟨e₀, _, rfl⟩ := he
    show ((_ - _) / _) * (((List.foldl updateNodesBody s (List.range s.nodes.length)).heap
      e₀.startNode).age * ((List.foldl updateNodesBody s (List.range s.nodes.length)).heap
      e₀.endNode).age) = 0
    rcases htouch with h | h
    · have h' : e₀.startNode = s.nodes.getD i 0 := h
      rw [h', hage]
      simp
    · have h' : e₀.endNode = s.nodes.getD i 0 := h
      rw [h', hage]
      simp

theorem Edge.alpha_zero_of_age_zero_witness :
    ((leaving : Sim ℝ).distanceThreshold ≠ 0 ∧ (leaving : Sim ℝ).nodes.Nodup ∧
      0 < (leaving : Sim ℝ).nodes.length ∧
      ((leaving : Sim ℝ).heap ((leaving : Sim ℝ).nodes.getD 0 0)).Respawns) ∧
    ∃ e ∈ (update Real.sqrt (leaving : Sim ℝ)).edges,
      e.startNode = (leaving : Sim ℝ).nodes.getD 0 0 ∧ e.alpha = 0 :=
  have hthr : (leaving : Sim ℝ).distanceThreshold ≠ 0 := by
    rw [leaving, twoNodes_distanceThreshold]
    norm_num
  have hnd : (leaving : Sim ℝ).nodes.Nodup := by
    rw [leaving, twoNodes_nodes]
    decide
  have hlen : 0 < (leaving : Sim ℝ).nodes.length := by
    rw [leaving, twoNodes_nodes]
    decide
  have hmem₀ : Edge.new 0 1 ∈ (updateEdges Real.sqrt (afterNodes (leaving : Sim ℝ))).edges := by
    rw [updateEdges_edges, mem_rebuiltEdges]
    refine ⟨(0, 1), ⟨mem_indexPairs.2 ⟨by decide, by decide⟩, ?_, ?_⟩, rfl⟩
    · show (0 : Nat) ≠ 1
      decide
    · show (afterNodes (leaving : Sim ℝ)).pixelDistance Real.sqrt 0 1 <
        (afterNodes (leaving : Sim ℝ)).distanceThreshold
      have ht : (afterNodes (leaving : Sim ℝ)).distanceThreshold = 800 :=
        twoNodes_distanceThreshold _ _
      rw [ht]
      exact afterNodes_leaving_pixelDistance
  have hmem : Edge.draw Real.sqrt (updateEdges Real.sqrt (afterNodes (leaving : Sim ℝ)))
      (Edge.new 0 1) ∈ (update Real.sqrt (leaving : Sim ℝ)).edges :=
    List.mem_map_of_mem _ hmem₀
  ⟨⟨hthr, hnd, hlen, leaving_respawns⟩, _, hmem, rfl,
    (Edge.alpha_zero_of_age_zero Real.sqrt leaving hthr).2 hnd 0 hlen leaving_respawns _ hmem
      (Or.inl rfl)⟩

/-- C12 as stated fails: on a 50x50 surface `createNodes`, called on the empty
node collection, constructs one node, while `floor(50*50/10000)` is `0`. -/
theorem createNodes_not_floor :
    (init (50 : ℚ) 50 (blank (fun _ => 1 / 2))).nodes = [] ∧
    (createNodes 2 (init (50 : ℚ) 50 (blank (fun _ => 1 / 2)))).map (fun s => s.nodes.length) =
      some 1 ∧
    (50 * 50) / 10000 = 0 := by
  refine ⟨rfl, ?_, by decide⟩
  obtain ⟨s', hs', hnodes, _⟩ := createNodes_from_empty 50 50 2
    (init (50 : ℚ) 50 (blank (fun _ => 1 / 2)))
    (by show (50 : ℚ) = ((50 : Nat) : ℚ); norm_num)
    (by show (50 : ℚ) = ((50 : Nat) : ℚ); norm_num) rfl (by decide)
  rw [hs', Option.map_some', hnodes, List.length_range']

/-- C12, amended: for all non-negative integer `width` and `height`,
`createNodes` called on an empty node collection constructs exactly
`ceil(width*height/10000)` nodes, which is `floor(width*height/10000)` when
`10000` divides `width*height` and one more otherwise; the nodes are pairwise
different objects, each freshly spawned (age `0`, fields from one call of
`spawn`, `x` and `y` in `[0, 1)` for draws in `[0, 1)`). -/
theorem createNodes_spec (w h fuel : Nat) (s : Sim K) (hw : s.width = w) (hh : s.height = h)
    (hn : s.nodes = []) (hfuel : (w * h + 9999) / 10000 < fuel) :
    ∃ s', createNodes fuel s = some s' ∧
      s'.nodes.length = (w * h + 9999) / 10000 ∧
      (10000 ∣ w * h → s'.nodes.length = w * h / 10000) ∧
      (¬ 10000 ∣ w * h → s'.nodes.length = w * h / 10000 + 1) ∧
      s'.nodes.Nodup ∧
      (∀ a ∈ s'.nodes, (s'.heap a).age = 0 ∧
        ∃ k, (s'.heap a).IsFreshAt s.width s.height s.rng k) ∧
      (s.rng.Unit → ∀ a ∈ s'.nodes,
        0 ≤ (s'.heap a).x ∧ (s'.heap a).x < 1 ∧ 0 ≤ (s'.heap a).y ∧ (s'.heap a).y < 1) := by
  obtain ⟨s', hs', hnodes, _, _, _, _, hfresh⟩ := createNodes_from_empty w h fuel s hw hh hn hfuel
  have hlen : s'.nodes.length = (w * h + 9999) / 10000 := by
    rw [hnodes, List.length_range']
  have hmem : ∀ a ∈ s'.nodes, ∃ j, j < (w * h + 9999) / 10000 ∧ a = s.next + j := by
    intro a ha
    rw [hnodes, List.mem_range'_1] at ha
    exact ⟨a - s.next, by omega, by omega⟩
  refine ⟨s', hs', hlen, ?_, ?_, ?_, ?_, ?_⟩
  · intro hd
    rw [hlen, ceilDiv_eq_of_dvd _ hd]
  · intro hd
    rw [hlen, ceilDiv_eq_succ_of_not_dvd _ hd]
  · rw [hnodes]
    exact List.nodup_range' _ _
  · intro a ha
    obtain ⟨j, hj, rfl⟩ := hmem a ha
    exact ⟨(hfresh j hj).1, 4 * j, hfresh j hj⟩
  · intro hr a ha
    obtain ⟨j, hj, rfl⟩ := hmem a ha
    obtain ⟨_, hx, hy, _⟩ := hfresh j hj
    rw [hx, hy]
    exact ⟨(hr _).1, (hr _).2, (hr _).1, (hr _).2⟩

theorem createNodes_spec_witness :
    ((init (1000 : ℚ) 1000 (blank (fun _ => 1 / 2))).width = ((1000 : Nat) : ℚ) ∧
      (init (1000 : ℚ) 1000 (blank (fun _ => 1 / 2))).height = ((1000 : Nat) : ℚ) ∧
      (init (1000 : ℚ) 1000 (blank (fun _ => 1 / 2))).nodes = [] ∧
      (1000 * 1000 + 9999) / 10000 < 101 ∧ 10000 ∣ 1000 * 1000) ∧
    ∃ s', createNodes 101 (init (1000 : ℚ) 1000 (blank (fun _ => 1 / 2))) = some s' ∧
      s'.nodes.length = 100 :=
  have hw : (init (1000 : ℚ) 1000 (blank (fun _ => 1 / 2))).width = ((1000 : Nat) : ℚ) := by
    show (1000 : ℚ) = ((1000 : Nat) : ℚ)
    norm_num
  have hh : (init (1000 : ℚ) 1000 (blank (fun _ => 1 / 2))).height = ((1000 : Nat) : ℚ) := by
    show (1000 : ℚ) = ((1000 : Nat) : ℚ)
    norm_num
  have hd : 10000 ∣ 1000 * 1000 := by decide
  ⟨⟨hw, hh, rfl, by decide, hd⟩,
    match createNodes_spec 1000 1000 101 (init (1000 : ℚ) 1000 (blank (fun _ => 1 / 2)))
      hw hh rfl (by decide) with
    | ⟨s', hs', _, hfloor, _⟩ => ⟨s', hs', hfloor hd⟩⟩

/-- C13: on a zero-area surface (`width = 0` or `height = 0`) `createNodes`,
called on empty collections, runs its loop body not once and creates no node,
the threshold is `0`, and any number of ticks runs without an out-of-range
index and without a division, leaving the node and edge collections empty. -/
theorem zero_area_surface (sqrt : K → K) (w h : K) (s : Sim K) (fuel k : Nat)
    (hw : 0 ≤ w) (hh : 0 ≤ h) (hz : w = 0 ∨ h = 0) (hn : s.nodes = []) (he : s.edges = []) :
    ∃ s', createNodes (fuel + 1) (init w h s) = some s' ∧
      s'.nodes = [] ∧ s'.edges = [] ∧ s'.amountOfNodes = 0 ∧ s'.distanceThreshold = 0 ∧
      ticksChecked sqrt k s' = .ok (ticks sqrt k s') ∧
      (ticks sqrt k s').nodes = [] ∧ (ticks sqrt k s').edges = [] := by
  have hwh : w * h = 0 := by
    rcases hz with e | e <;> rw [e] <;> simp
  have hmin : min w h = 0 := by
    rcases hz with e | e
    · rw [e]
      exact min_eq_left hh
    · rw [e]
      exact min_eq_right hw
  have hamount : ((init w h s).width * (init w h s).height) / (INVERSE_NODE_DENSITY : K) = 0 := by
    show (w * h) / _ = 0
    rw [hwh, zero_div]
  have hcreate : createNodes (fuel + 1) (init w h s) =
      some { init w h s with amountOfNodes := 0 } := by
    unfold createNodes createNodesLoop
    simp only [hamount, Nat.cast_zero, lt_irrefl, if_false]
  have hthr : (init w h s).distanceThreshold = 0 := by
    show min w h * NODE_MAX_DISTANCE = 0
    rw [hmin, zero_mul]
  have ht := ticks_of_no_nodes sqrt k { init w h s with amountOfNodes := 0 } hn he
  exact ⟨_, hcreate, hn, he, rfl, hthr, ht.1, ht.2.1, ht.2.2⟩

theorem zero_area_surface_witness :
    (((0 : ℚ) ≤ 0 ∧ (0 : ℚ) ≤ 100 ∧ ((0 : ℚ) = 0 ∨ (100 : ℚ) = 0)) ∧
      (blank (fun _ => (1 / 2 : ℚ))).nodes = [] ∧ (blank (fun _ => (1 / 2 : ℚ))).edges = []) ∧
    ∃ s', createNodes 1 (init (0 : ℚ) 100 (blank (fun _ => 1 / 2))) = some s' ∧
      s'.nodes = [] ∧ s'.distanceThreshold = 0 ∧
      ticksChecked (fun x => x) 5 s' = .ok (ticks (fun x => x) 5 s') ∧
      (ticks (fun x => x) 5 s').nodes = [] ∧ (ticks (fun x => x) 5 s').edges = [] :=
  ⟨⟨⟨le_refl _, by norm_num, Or.inl rfl⟩, rfl, rfl⟩,
    match zero_area_surface (fun x => x) (0 : ℚ) 100 (blank (fun _ => 1 / 2)) 0 5
      (le_refl _) (by norm_num) (Or.inl rfl) rfl rfl with
    | ⟨s', h1, h2, _, _, h5, h6, h7, h8⟩ => ⟨s', h1, h2, h5, h6, h7, h8⟩⟩

/-- C14: `calculateAlpha` never divides by a zero threshold for an edge built
by `updateEdges`: with `distanceThreshold <= 0` no edge is built at all, every
edge that is built has `distanceThreshold > 0`, the checked drawing of the
rebuilt edges reports no division by zero, and for every edge at the end of a
tick the threshold, unchanged through the tick, is positive; on a surface with
non-zero sides, or without nodes, the whole checked tick reports no fault. -/
theorem updateEdges_threshold_pos (s : Sim ℝ) :
    (s.distanceThreshold ≤ 0 → (updateEdges Real.sqrt s).edges = []) ∧
    (∀ e ∈ (updateEdges Real.sqrt s).edges, 0 < (updateEdges Real.sqrt s).distanceThreshold) ∧
    drawEdgesLoop Real.sqrt (updateEdges Real.sqrt s)
        (List.range (updateEdges Real.sqrt s).edges.length) =
      .ok ((updateEdges Real.sqrt s).edges.map (Edge.draw Real.sqrt (updateEdges Real.sqrt s))) ∧
    (∀ e ∈ (update Real.sqrt s).edges,
      (update Real.sqrt s).distanceThreshold = s.distanceThreshold ∧
      (updateEdges Real.sqrt (afterNodes s)).distanceThreshold = s.distanceThreshold ∧
      0 < s.distanceThreshold) ∧
    ((s.width ≠ 0 ∧ s.height ≠ 0) ∨ s.nodes = [] →
      updateChecked Real.sqrt s = .ok (update Real.sqrt s)) := by
  have key : ∀ (t : Sim ℝ) (e : Edge ℝ), e ∈ (updateEdges Real.sqrt t).edges →
      0 < t.distanceThreshold := by
    intro t e he
    rw [updateEdges_edges] at he
    obtain ⟨hd0, hd⟩ := threshold_pos_of_mem_rebuiltEdges he
    exact lt_of_le_of_lt hd0 hd
  have hnil : s.distanceThreshold ≤ 0 → (updateEdges Real.sqrt s).edges = [] := by
    intro h
    rw [updateEdges_edges]
    exact rebuiltEdges_eq_nil_of_threshold_nonpos s h
  refine ⟨hnil, key s, ?_, ?_, updateChecked_real s⟩
  · apply drawEdgesLoop_range
    by_cases h : s.distanceThreshold ≤ 0
    · exact Or.inr (hnil h)
    · exact Or.inl (fun e => h (le_of_eq e))
  · intro e he
    have hthr : (afterNodes s).distanceThreshold = s.distanceThreshold :=
      foldl_updateNodesBody_distanceThreshold _ s
    rw [update_edges_afterNodes, List.mem_map] at he
    obtain ⟨e₀, he₀, _⟩ := he
    have hpos := key (afterNodes s) e₀ he₀
    rw [hthr] at hpos
    exact ⟨update_distanceThreshold Real.sqrt s, hthr, hpos⟩

theorem updateEdges_threshold_pos_witness :
    (Edge.new 0 1 ∈ (updateEdges Real.sqrt (scenarioD : Sim ℝ)).edges ∧
      (init (0 : ℝ) 100 (scenarioD : Sim ℝ)).distanceThreshold ≤ 0) ∧
    0 < (updateEdges Real.sqrt (scenarioD : Sim ℝ)).distanceThreshold ∧
    (updateEdges Real.sqrt (init (0 : ℝ) 100 (scenarioD : Sim ℝ))).edges = [] :=
  have hthr : 0 < (scenarioD : Sim ℝ).distanceThreshold := by
    rw [scenarioD, twoNodes_distanceThreshold]
    norm_num
  have hmem : Edge.new 0 1 ∈ (updateEdges Real.sqrt (scenarioD : Sim ℝ)).edges := by
    rw [updateEdges_edges, mem_rebuiltEdges]
    refine ⟨(0, 1), ⟨mem_indexPairs.2 ⟨by decide, by decide⟩, ?_, ?_⟩, rfl⟩
    · show (0 : Nat) ≠ 1
      decide
    · show (scenarioD : Sim ℝ).pixelDistance Real.sqrt 0 1 < (scenarioD : Sim ℝ).distanceThreshold
      rw [pixelDistance_eq_zero_of_same_position _ 0 1 rfl rfl]
      exact hthr
  have hzero : (init (0 : ℝ) 100 (scenarioD : Sim ℝ)).distanceThreshold ≤ 0 := by
    show min (0 : ℝ) 100 * NODE_MAX_DISTANCE ≤ 0
    rw [min_eq_left (by norm_num), zero_mul]
  ⟨⟨hmem, hzero⟩,
    (updateEdges_threshold_pos (scenarioD : Sim ℝ)).2.1 (Edge.new 0 1) hmem,
    (updateEdges_threshold_pos (init (0 : ℝ) 100 (scenarioD : Sim ℝ))).1 hzero⟩

/-- C16: `update` adds the step `0.01` to the age exactly when the age was at
most `1` before the call, leaves it otherwise, and a respawn sets it to `0`; so
an age in `[0, 1.01]` is in `[0, 1.01]` again after `update`, and the age of a
freshly spawned node never exceeds `1.01` after any number of updates. -/
theorem Node.update_age_bounded (width height : K) (n : Node K) (r : Rng K) :
    (¬ n.Respawns → n.age ≤ 1 → (Node.update width height n r).1.age = n.age + 0.01) ∧
    (¬ n.Respawns → ¬ n.age ≤ 1 → (Node.update width height n r).1.age = n.age) ∧
    (n.Respawns → (Node.update width height n r).1.age = 0) ∧
    (0 ≤ n.age → n.age ≤ 1.01 →
      0 ≤ (Node.update width height n r).1.age ∧
        (Node.update width height n r).1.age ≤ 1.01) ∧
    (∀ k : Nat,
      0 ≤ (Node.updateN width height k (Node.spawn width height n r).1
          (Node.spawn width height n r).2).1.age ∧
      (Node.updateN width height k (Node.spawn width height n r).1
          (Node.spawn width height n r).2).1.age ≤ 1.01) := by
  refine ⟨?_, ?_, ?_, ?_, ?_⟩
  · intro hr ha
    rw [Node.update_age, if_neg hr, if_pos ha]
  · intro hr ha
    rw [Node.update_age, if_neg hr, if_neg ha]
  · intro hr
    rw [Node.update_age, if_pos hr]
  · intro h0 h1
    exact ⟨Node.update_age_nonneg width height n r h0,
      Node.update_age_le_cap width height n r h1⟩
  · intro k
    have hz : (Node.spawn width height n r).1.age = 0 := rfl
    exact Node.updateN_age_bounds width height k _ _ (by rw [hz]) (by rw [hz]; norm_num)

theorem Node.update_age_bounded_witness :
    (¬ (resting (1 : ℚ)).Respawns ∧ (resting (1 : ℚ)).age ≤ 1 ∧
      ¬ (resting (1.01 : ℚ)).Respawns ∧ ¬ (resting (1.01 : ℚ)).age ≤ 1 ∧
      (0 : ℚ) ≤ (resting (1.01 : ℚ)).age ∧ (resting (1.01 : ℚ)).age ≤ 1.01) ∧
    (Node.update 1000 1000 (resting (1 : ℚ)) (fun _ => 1 / 2)).1.age =
      (resting (1 : ℚ)).age + 0.01 ∧
    (Node.update 1000 1000 (resting (1.01 : ℚ)) (fun _ => 1 / 2)).1.age =
      (resting (1.01 : ℚ)).age ∧
    (Node.update 1000 1000 (resting (1.01 : ℚ)) (fun _ => 1 / 2)).1.age ≤ 1.01 :=
  have hin : ∀ a : ℚ, ¬ (resting a).Respawns := fun a =>
    Node.not_respawns_of_inside
      (by show (0 : ℚ) < 0.5 + 0 ∧ (0.5 : ℚ) + 0 < 1; constructor <;> norm_num)
      (by show (0 : ℚ) < 0.5 + 0 ∧ (0.5 : ℚ) + 0 < 1; constructor <;> norm_num)
  have h1 : (resting (1 : ℚ)).age ≤ 1 := le_refl _
  have h2 : ¬ (resting (1.01 : ℚ)).age ≤ 1 := by
    show ¬ (1.01 : ℚ) ≤ 1
    norm_num
  have h3 : (0 : ℚ) ≤ (resting (1.01 : ℚ)).age := by
    show (0 : ℚ) ≤ 1.01
    norm_num
  have h4 : (resting (1.01 : ℚ)).age ≤ 1.01 := le_refl _
  ⟨⟨hin 1, h1, hin 1.01, h2, h3, h4⟩,
    (Node.update_age_bounded 1000 1000 (resting (1 : ℚ)) (fun _ => 1 / 2)).1 (hin 1) h1,
    (Node.update_age_bounded 1000 1000 (resting (1.01 : ℚ)) (fun _ => 1 / 2)).2.1 (hin 1.01) h2,
    ((Node.update_age_bounded 1000 1000 (resting (1.01 : ℚ)) (fun _ => 1 / 2)).2.2.2.1 h3 h4).2⟩

/-- C17: `update` calls `spawn` if and only if the advanced `x + speedx` is
`<= 0` or `>= 1` or the advanced `y + speedy` is `<= 0` or `>= 1`.  With both
advanced coordinates strictly inside `(0, 1)` there is no respawn: `x` becomes
`x + speedx`, `y` becomes `y + speedy`, the speeds stay, the age is raised by
`0.01` if it was at most `1` and stays otherwise, and no draw is read.  An
advanced coordinate of exactly `0` triggers a respawn. -/
theorem Node.update_respawn_iff (width height : K) (n : Node K) (r : Rng K) :
    (Node.updateCounting width height n r).1 = Node.update width height n r ∧
    (0 < (Node.updateCounting width height n r).2 ↔
      (n.x + n.speedx ≤ 0 ∨ n.x + n.speedx ≥ 1 ∨ n.y + n.speedy ≤ 0 ∨ n.y + n.speedy ≥ 1)) ∧
    ((0 < n.x + n.speedx ∧ n.x + n.speedx < 1) → (0 < n.y + n.speedy ∧ n.y + n.speedy < 1) →
      (Node.updateCounting width height n r).2 = 0 ∧
      (Node.update width height n r).2 = r ∧
      (Node.update width height n r).1.x = n.x + n.speedx ∧
      (Node.update width height n r).1.y = n.y + n.speedy ∧
      (Node.update width height n r).1.speedx = n.speedx ∧
      (Node.update width height n r).1.speedy = n.speedy ∧
      (Node.update width height n r).1.age = (if n.age ≤ 1 then n.age + 0.01 else n.age) ∧
      (Node.update width height n r).1.color = n.color ∧
      (Node.update width height n r).1.radius = n.radius) ∧
    ((n.x + n.speedx = 0 ∨ n.y + n.speedy = 0) →
      0 < (Node.updateCounting width height n r).2 ∧
      (Node.update width height n r).1.age = 0) := by
  refine ⟨Node.updateCounting_fst width height n r,
    Node.updateCounting_pos_iff width height n r, ?_, ?_⟩
  · intro hx hy
    have hnr : ¬ n.Respawns := Node.not_respawns_of_inside hx hy
    have hc : (Node.updateCounting width height n r).2 = 0 := by
      have h := (Node.updateCounting_pos_iff width height n r).not.2 hnr
      exact Nat.eq_zero_of_not_pos h
    rw [Node.update_of_inside width height n r hx hy]
    refine ⟨hc, rfl, rfl, rfl, ?_, ?_, Node.advance_age n, ?_, ?_⟩ <;>
      (unfold Node.advance; split_ifs <;> rfl)
  · intro h0
    have hr : n.Respawns := by
      unfold Node.Respawns
      rcases h0 with h | h
      · exact Or.inl h.le
      · exact Or.inr (Or.inr (Or.inl h.le))
    exact ⟨(Node.updateCounting_pos_iff width height n r).2 hr,
      Node.update_age_of_respawn width height n r hr⟩

theorem Node.update_respawn_iff_witness :
    (((0 : ℚ) < 0.5 + 0 ∧ (0.5 : ℚ) + 0 < 1) ∧
      ((0.25 : ℚ) + (-0.25) = 0 ∨ (0.5 : ℚ) + 0 = 0)) ∧
    (Node.update 1000 1000 (resting (0.5 : ℚ)) (fun _ => 1 / 2)).1.x = 0.5 + 0 ∧
    (Node.update 1000 1000 (resting (0.5 : ℚ)) (fun _ => 1 / 2)).1.age = 0.5 + 0.01 ∧
    0 < (Node.updateCounting 1000 1000
      { (Node.new : Node ℚ) with x := 0.25, y := 0.5, speedx := -0.25, age := 1 }
      (fun _ => 1 / 2)).2 ∧
    (Node.update 1000 1000
      { (Node.new : Node ℚ) with x := 0.25, y := 0.5, speedx := -0.25, age := 1 }
      (fun _ => 1 / 2)).1.age = 0 :=
  have hin : (0 : ℚ) < 0.5 + 0 ∧ (0.5 : ℚ) + 0 < 1 := by constructor <;> norm_num
  have hz : (0.25 : ℚ) + (-0.25) = 0 ∨ (0.5 : ℚ) + 0 = 0 := Or.inl (by norm_num)
  have h := (Node.update_respawn_iff 1000 1000 (resting (0.5 : ℚ)) (fun _ => 1 / 2)).2.2.1
    hin hin
  have ha : (if (resting (0.5 : ℚ)).age ≤ 1 then (resting (0.5 : ℚ)).age + 0.01
      else (resting (0.5 : ℚ)).age) = 0.5 + 0.01 :=
    if_pos (by show (0.5 : ℚ) ≤ 1; norm_num)
  ⟨⟨hin, hz⟩, h.2.2.1, h.2.2.2.2.2.2.1.trans ha,
    (Node.update_respawn_iff 1000 1000
      { (Node.new : Node ℚ) with x := 0.25, y := 0.5, speedx := -0.25, age := 1 }
      (fun _ => 1 / 2)).2.2.2 hz⟩

/-- C18: for every edge produced by `updateEdges` whose two nodes have
non-negative ages, the `alpha` that `calculateAlpha` computes with nodes and
threshold unchanged satisfies `0 ≤ alpha ≤ startNode.age * endNode.age`, and
`alpha > 0` exactly when both ages are positive; the same holds for the alpha
every edge carries at the end of a tick. -/
theorem Edge.alpha_bounds_of_rebuilt (s : Sim ℝ) :
    (∀ e ∈ (updateEdges Real.sqrt s).edges,
      0 ≤ (s.heap e.startNode).age → 0 ≤ (s.heap e.endNode).age →
      0 ≤ (Edge.calculateAlpha Real.sqrt (updateEdges Real.sqrt s) e).alpha ∧
      (Edge.calculateAlpha Real.sqrt (updateEdges Real.sqrt s) e).alpha ≤
        (s.heap e.startNode).age * (s.heap e.endNode).age ∧
      (0 < (Edge.calculateAlpha Real.sqrt (updateEdges Real.sqrt s) e).alpha ↔
        0 < (s.heap e.startNode).age ∧ 0 < (s.heap e.endNode).age)) ∧
    (∀ e ∈ (update Real.sqrt s).edges,
      0 ≤ ((update Real.sqrt s).heap e.startNode).age →
      0 ≤ ((update Real.sqrt s).heap e.endNode).age →
      0 ≤ e.alpha ∧
      e.alpha ≤ ((update Real.sqrt s).heap e.startNode).age *
        ((update Real.sqrt s).heap e.endNode).age ∧
      (0 < e.alpha ↔ 0 < ((update Real.sqrt s).heap e.startNode).age ∧
        0 < ((update Real.sqrt s).heap e.endNode).age)) := by
  have key : ∀ (t : Sim ℝ) (e : Edge ℝ), e ∈ (updateEdges Real.sqrt t).edges →
      0 ≤ (t.heap e.startNode).age → 0 ≤ (t.heap e.endNode).age →
      0 ≤ (Edge.calculateAlpha Real.sqrt (updateEdges Real.sqrt t) e).alpha ∧
      (Edge.calculateAlpha Real.sqrt (updateEdges Real.sqrt t) e).alpha ≤
        (t.heap e.startNode).age * (t.heap e.endNode).age ∧
      (0 < (Edge.calculateAlpha Real.sqrt (updateEdges Real.sqrt t) e).alpha ↔
        0 < (t.heap e.startNode).age ∧ 0 < (t.heap e.endNode).age) := by
    intro t e he h0 h1
    rw [updateEdges_edges] at he
    obtain ⟨hd0, hd⟩ := threshold_pos_of_mem_rebuiltEdges he
    exact alpha_bounds_of_factor (factor_bounds hd0 hd) h0 h1
  refine ⟨key s, ?_⟩
  intro e he h0 h1
  rw [update_edges_afterNodes, List.mem_map] at he
  obtain ⟨e₀, he₀, rfl⟩ := he
  exact key (afterNodes s) e₀ he₀ h0 h1

theorem Edge.alpha_bounds_of_rebuilt_witness :
    (Edge.new 0 1 ∈ (updateEdges Real.sqrt (scenarioA : Sim ℝ)).edges ∧
      0 ≤ ((scenarioA : Sim ℝ).heap (Edge.new 0 1 : Edge ℝ).startNode).age ∧
      0 ≤ ((scenarioA : Sim ℝ).heap (Edge.new 0 1 : Edge ℝ).endNode).age) ∧
    0 < (Edge.calculateAlpha Real.sqrt (updateEdges Real.sqrt (scenarioA : Sim ℝ))
      (Edge.new 0 1)).alpha :=
  have hmem : Edge.new 0 1 ∈ (updateEdges Real.sqrt (scenarioA : Sim ℝ)).edges := by
    rw [updateEdges_edges, mem_rebuiltEdges]
    refine ⟨(0, 1), ⟨mem_indexPairs.2 ⟨by decide, by decide⟩, ?_, ?_⟩, rfl⟩
    · show (0 : Nat) ≠ 1
      decide
    · show (scenarioA : Sim ℝ).pixelDistance Real.sqrt 0 1 < (scenarioA : Sim ℝ).distanceThreshold
      rw [scenarioA_pixelDistance, scenarioA, twoNodes_distanceThreshold]
      norm_num
  have h0 : (0 : ℝ) ≤ ((scenarioA : Sim ℝ).heap (Edge.new 0 1 : Edge ℝ).startNode).age := by
    show (0 : ℝ) ≤ 1
    norm_num
  have h1 : (0 : ℝ) ≤ ((scenarioA : Sim ℝ).heap (Edge.new 0 1 : Edge ℝ).endNode).age := by
    show (0 : ℝ) ≤ 1
    norm_num
  ⟨⟨hmem, h0, h1⟩,
    ((Edge.alpha_bounds_of_rebuilt (scenarioA : Sim ℝ)).1 (Edge.new 0 1) hmem h0 h1).2.2.2
      ⟨by show (0 : ℝ) < 1; norm_num, by show (0 : ℝ) < 1; norm_num⟩⟩

end

end Nedge
